import Mathlib

/-!
# Verification of the junco filesystem layer (`src/fs.cpp`)

A shallow embedding of junco's `File` / `Directory` / `FileSystem` triad.
Byte-level file operations are modelled as pure functions on byte lists;
the directory cache and the path walk are modelled as explicit state
passing over an arena of directory nodes; the reader/writer mutex is
modelled, for the one temporal claim, as a partition of each operation
into the atomic critical sections the source actually takes.
-/

namespace Junco

/-! ## Byte-stream model of `File`
(`File::read`, `File::write`, `File::clear`, `File::set_contents`,
`File::append`, `File::get_contents`, `File::get_size` in `src/fs.cpp`). -/

/-- Bytes of a host file, one `Nat` per byte; `0` is the NUL byte `\0`. -/
abbrev Bytes := List Nat

/-- Writes `src` over the front of a pre-allocated buffer `buff`, keeping
the tail of `buff` where `src` is shorter.  This models
`fstream.read(&buff[0], count)` filling a `std::string(count, '\0')`:
the stream stores the bytes it could read at the front of the buffer and
leaves the rest of the buffer untouched. -/
def fillBuff (buff src : Bytes) : Bytes :=
  src ++ buff.drop src.length

/-- Embeds `File::read(pos, count)`: allocate a buffer of `count` NUL
bytes, seek the get position to `pos`, read at most `count` available
bytes into the front of the buffer, and return the whole buffer. -/
def fileRead (contents : Bytes) (pos count : Nat) : Bytes :=
  fillBuff (List.replicate count 0) ((contents.drop pos).take count)

/-- Embeds `File::write(data, pos)`: seek the put position to `pos` and
overwrite `data.length` bytes in place, extending the file when the
write runs past the current end.  A seek gap past the old end is
zero-filled (the POSIX host behavior; no claim depends on the filler). -/
def fileWrite (contents data : Bytes) (pos : Nat) : Bytes :=
  contents.take pos ++ List.replicate (pos - contents.length) 0 ++ data
    ++ contents.drop (pos + data.length)

/-- Embeds `File::clear()`: the stream is re-opened with
`std::ios::trunc`, leaving the file empty. -/
def fileClear (_contents : Bytes) : Bytes := []

/-- Embeds `File::get_size()` (`std::filesystem::file_size(path)`). -/
def fileSize (contents : Bytes) : Nat := contents.length

/-- Embeds `File::set_contents(new_contents)`: `clear()` followed by
`write(new_contents, 0)`. -/
def setContents (contents new_contents : Bytes) : Bytes :=
  fileWrite (fileClear contents) new_contents 0

/-- Embeds `File::append(data)`: `write(data, get_size())`. -/
def fileAppend (contents data : Bytes) : Bytes :=
  fileWrite contents data (fileSize contents)

/-- Embeds `File::get_contents()`: `read(0, get_size())`. -/
def getContents (contents : Bytes) : Bytes :=
  fileRead contents 0 (fileSize contents)

/-! ## Critical-section model of concurrent `File` access

`File::read`, `File::write` and `File::clear` each acquire
`std::unique_lock(rw_mutex)` for exactly the extent of their own body, so
each of those bodies is one atomic step with respect to other accessors.
`File::set_contents` takes no lock of its own: it is the two-step
sequence `clear(); write(new_contents, 0)` and the mutex is free between
the two steps. -/

/-- One critical section on a `File`: a block of `src/fs.cpp` code
executed while holding `rw_mutex`. -/
inductive FileAction where
  | trunc : FileAction
  | write (data : Bytes) (pos : Nat) : FileAction
  | read (pos count : Nat) : FileAction
deriving DecidableEq

/-- Effect of one critical section on the file bytes, together with the
observation (the returned buffer) when the section is a read. -/
def applyAction (c : Bytes) : FileAction → Bytes × Option Bytes
  | .trunc => (fileClear c, none)
  | .write data pos => (fileWrite c data pos, none)
  | .read pos count => (c, some (fileRead c pos count))

/-- Runs a schedule of critical sections from initial contents `c`,
returning the final contents and the list of read observations in
schedule order. -/
def runTrace (c : Bytes) : List FileAction → Bytes × List Bytes
  | [] => (c, [])
  | a :: rest =>
      match applyAction c a with
      | (c1, none) => runTrace c1 rest
      | (c1, some r) =>
          match runTrace c1 rest with
          | (cf, outs) => (cf, r :: outs)

/-- Critical sections taken by `File::set_contents(B)`: the truncate of
`clear()` and the positioned write of `write(B, 0)`, as two separate
lock acquisitions. -/
def setContentsProg (B : Bytes) : List FileAction :=
  [FileAction.trunc, FileAction.write B 0]

/-- Schedules of two threads: `Interleaving xs ys zs` holds when `zs` is
a merge of `xs` and `ys` that preserves the order of each. -/
inductive Interleaving : List FileAction → List FileAction → List FileAction → Prop where
  | nil : Interleaving [] [] []
  | left {x xs ys zs} : Interleaving xs ys zs → Interleaving (x :: xs) ys (x :: zs)
  | right {y xs ys zs} : Interleaving xs ys zs → Interleaving xs (y :: ys) (y :: zs)

/-! ## Theorems about the byte-stream model -/

/-- Claim C5: for every byte sequence `B`, `set_contents(B)` immediately
followed by `get_contents()` returns exactly `B`, and `write(B, 0)`
immediately followed by `read(0, len(B))` returns exactly `B` (no
concurrent accessors). -/
theorem C5_round_trip (c B : Bytes) :
    getContents (setContents c B) = B ∧
    fileRead (fileWrite c B 0) 0 B.length = B := by
  constructor
  · simp [getContents, setContents, fileClear, fileWrite, fileRead, fileSize,
      fillBuff, List.take_length]
  · simp [fileWrite, fileRead, fillBuff, List.take_length]

/-- Claim C6 as written is false: when fewer than `count` bytes remain
past `pos`, `File::read(pos, count)` does not return a shorter result.
At contents `[97]` (one byte), `read(0, 2)` returns the two-byte buffer
`[97, 0]` — the available byte followed by NUL padding — not the
one-byte result `[97]` the claim requires. -/
theorem C6_counterexample :
    fileRead [97] 0 2 = [97, 0] ∧ (fileRead [97] 0 2).length = 2 ∧
      fileRead [97] 0 2 ≠ [97] := by
  decide

/-- Claim C6 amended: `File::read(pos, count)` always returns a buffer
of length exactly `count`: the bytes of the file from `pos` (at most
`count` of them), followed by NUL (`0`) padding when fewer than `count`
bytes remain.  In particular, when `count` bytes are available past
`pos` the result is exactly those `count` bytes (no padding), and for an
empty file a count of `0` yields the empty result. -/
theorem C6_read_returns_padded_buffer (c : Bytes) (pos count : Nat) :
    (fileRead c pos count).length = count ∧
    fileRead c pos count =
      (c.drop pos).take count
        ++ List.replicate (count - ((c.drop pos).take count).length) 0 := by
  have hle : ((c.drop pos).take count).length ≤ count := by
    simp [List.length_take]
  constructor
  · simp [fileRead, fillBuff, List.length_take]
  · simp [fileRead, fillBuff, List.drop_replicate]

/-- Claim C1 asserts that no other accessor's operation can be
interposed between the truncate step and the write step of
`File::set_contents(B)`.  The code violates this: `set_contents` is
`clear(); write(B, 0);` and each of the two callees acquires and
releases `rw_mutex` separately, so the schedule
`[trunc, read, write]` is a legal interleaving of `set_contents([104,
105])` with a concurrent `read(0, 3)`.  Starting from contents
`[97, 98, 99]`, the interposed reader observes `[0, 0, 0]` — the
truncated intermediate file, which is neither the old contents nor the
new ones. -/
theorem C1_interposed_read_between_truncate_and_write :
    Interleaving (setContentsProg [104, 105]) [FileAction.read 0 3]
      [FileAction.trunc, FileAction.read 0 3, FileAction.write [104, 105] 0] ∧
    runTrace [97, 98, 99]
      [FileAction.trunc, FileAction.read 0 3, FileAction.write [104, 105] 0]
      = ([104, 105], [[0, 0, 0]]) ∧
    ([0, 0, 0] : Bytes) ≠ [97, 98, 99] ∧ ([0, 0, 0] : Bytes) ≠ [104, 105] := by
  refine ⟨?_, by decide, by decide, by decide⟩
  exact Interleaving.left (Interleaving.right (Interleaving.left Interleaving.nil))

/-! ## Host filesystem model

The host is the single source of truth for which names exist and whether
they are files or directories (`std::filesystem::exists`,
`std::filesystem::is_directory`).  Host paths are absolute segment
lists; the host resolves `.`, empty and `..` segments, so lookups
normalize first. -/

/-- Kind of a host filesystem entry. -/
inductive HKind where
  | file : HKind
  | dir : HKind
deriving DecidableEq

/-- Association-list lookup with decidable string-list keys. -/
def plookup : List (List String × HKind) → List String → Option HKind
  | [], _ => none
  | (k, v) :: rest, key => if key = k then some v else plookup rest key

/-- Host filesystem contents: finitely many entries, each an absolute
path with a kind. -/
abbrev Host := List (List String × HKind)

/-- Resolves `.`-segments, empty segments and `..`-segments of an
absolute path the way the host does when `std::filesystem::exists` and
friends reach the real filesystem; `..` at the host root stays at the
root. -/
def normSegs (stack : List String) : List String → List String
  | [] => stack
  | s :: rest =>
      if s = "." ∨ s = "" then normSegs stack rest
      else if s = ".." then normSegs stack.dropLast rest
      else normSegs (stack ++ [s]) rest

/-- Normal form of an absolute host path. -/
def normalizePath (p : List String) : List String := normSegs [] p

/-- Kind of the host entry a path resolves to (`none`: no entry). -/
def hostKind (h : Host) (p : List String) : Option HKind :=
  plookup h (normalizePath p)

/-- Embeds `Directory::create_file` (`std::ofstream(path / name)`): an
empty host file appears when the target is absent and its parent
directory exists; opening an existing entry never changes its kind
(an existing file is truncated, a directory makes the stream fail
silently), and a missing parent makes the stream fail with no host
effect. -/
def hostCreateFile (h : Host) (p : List String) : Host :=
  if hostKind h (normalizePath p) = none
      ∧ hostKind h (normalizePath p).dropLast = some HKind.dir then
    (normalizePath p, HKind.file) :: h
  else h

/-- Embeds `Directory::create_directory`
(`std::filesystem::create_directory(path / name)`): a directory appears
when the target is absent and its parent exists; creation at an
existing path reports `false` and changes nothing. -/
def hostCreateDir (h : Host) (p : List String) : Host :=
  if hostKind h (normalizePath p) = none
      ∧ hostKind h (normalizePath p).dropLast = some HKind.dir then
    (normalizePath p, HKind.dir) :: h
  else h

/-! ## Directory arena model

C++ `Directory` and `File` objects live behind stable references; the
embedding gives every `Directory` ever constructed a slot in an arena
(`FS.nodes`, index 0 is the root the `FileSystem` constructor builds)
and stamps every `File` construction with a serial number `oid`, so that
"same object" is expressible. -/

/-- One `junco::File` object held in a `Directory::cached_files` slot:
its host path and the serial number of its construction
(`new File(target_path)` in `Directory::cache_file`). -/
structure FileObj where
  path : List String
  oid : Nat
deriving DecidableEq

/-- One `junco::Directory` object: host path, parent pointer
(`Directory *parent`, `none` only for the root) and the two cache maps
`cached_files` / `cached_directories` (child directories are arena
indices). -/
structure DirNode where
  path : List String
  parent : Option Nat
  cfiles : List (String × FileObj)
  cdirs : List (String × Nat)
deriving DecidableEq

/-- State of one `FileSystem` object together with the host:
`nodes` is the arena of every `Directory` constructed so far and
`nextOid` counts `File` constructions. -/
structure FS where
  host : Host
  nodes : List DirNode
  nextOid : Nat
deriving DecidableEq

/-- Embeds the `FileSystem` constructor: one root `Directory` at the
given path, with no parent. -/
def initFS (h : Host) (rootPath : List String) : FS :=
  ⟨h, [⟨rootPath, none, [], []⟩], 0⟩

/-- Error kinds of the fs layer: `InvalidPathException` (the spec's
`InvalidPath`), `FileNotFoundException` (the spec's `EntryNotFound`) and
the `std::out_of_range` of an `unordered_map::at` miss (dead code in
the sequential model, kept for faithfulness). -/
inductive Err where
  | invalidPath : Err
  | entryNotFound : Err
  | outOfRange : Err
deriving DecidableEq

/-- Association-list lookup for the cache maps. -/
def alookup {α : Type} : List (String × α) → String → Option α
  | [], _ => none
  | (k, v) :: rest, key => if key = k then some v else alookup rest key

/-- Embeds `std::unordered_map::insert({k, v})`: a no-op when the key is
already present. -/
def insertIfAbsent {α : Type} (m : List (String × α)) (k : String) (v : α) :
    List (String × α) :=
  match alookup m k with
  | some _ => m
  | none => (k, v) :: m

/-- The `Directory` object in slot `d` of the arena. -/
def getNode (s : FS) (d : Nat) : DirNode :=
  s.nodes.getD d ⟨[], none, [], []⟩

/-- Host path of the `Directory` in slot `d`. -/
def dirPath (s : FS) (d : Nat) : List String := (getNode s d).path

/-- Embeds `Directory::directory_exists(name)`: the host entry at
`path / name` exists and is a directory. -/
def directoryExistsB (s : FS) (d : Nat) (name : String) : Bool :=
  let k := hostKind s.host (dirPath s d ++ [name])
  k.isSome && (k = some HKind.dir)

/-- Embeds `Directory::file_exists(name)`: the host entry at
`path / name` exists and `directory_exists(name)` is false. -/
def fileExistsB (s : FS) (d : Nat) (name : String) : Bool :=
  (hostKind s.host (dirPath s d ++ [name])).isSome
    && !(directoryExistsB s d name)

/-- Embeds `Directory::file_is_cached(name)`. -/
def fileIsCachedB (s : FS) (d : Nat) (name : String) : Bool :=
  (alookup (getNode s d).cfiles name).isSome

/-- Embeds `Directory::directory_is_cached(name)`. -/
def directoryIsCachedB (s : FS) (d : Nat) (name : String) : Bool :=
  (alookup (getNode s d).cdirs name).isSome

/-- Embeds `Directory::cache_file(name)`: construct a `File` object for
`path / name` (stamping it with the next serial number) and insert it
into `cached_files` (a no-op insert when the name is already present,
as for `std::unordered_map::insert`). -/
def cacheFile (s : FS) (d : Nat) (name : String) : FS :=
  let n := getNode s d
  let f : FileObj := ⟨dirPath s d ++ [name], s.nextOid⟩
  { s with
    nextOid := s.nextOid + 1,
    nodes := s.nodes.set d { n with cfiles := insertIfAbsent n.cfiles name f } }

/-- Embeds `Directory::cache_directory(name)`: construct a child
`Directory` for `path / name` whose parent pointer is this directory,
place it in the arena, and insert its index into `cached_directories`. -/
def cacheDirectory (s : FS) (d : Nat) (name : String) : FS :=
  let n := getNode s d
  let child : DirNode := ⟨dirPath s d ++ [name], some d, [], []⟩
  { s with
    nodes :=
      (s.nodes.set d
        { n with cdirs := insertIfAbsent n.cdirs name s.nodes.length })
      ++ [child] }

/-- Embeds the final `cached_files.at(name)` of `Directory::get_file`:
return the cached `File` object, or throw `std::out_of_range` on a miss
(dead code sequentially, since the name was cached just before). -/
def cachedFilesAt (s1 : FS) (d : Nat) (name : String) :
    Except Err FileObj × FS :=
  match alookup (getNode s1 d).cfiles name with
  | some f => (Except.ok f, s1)
  | none => (Except.error Err.outOfRange, s1)

/-- Embeds the final `cached_directories.at(name)` of
`Directory::get_directory`. -/
def cachedDirsAt (s1 : FS) (d : Nat) (name : String) : Except Err Nat × FS :=
  match alookup (getNode s1 d).cdirs name with
  | some j => (Except.ok j, s1)
  | none => (Except.error Err.outOfRange, s1)

/-- Embeds `Directory::get_file(name)`: throw `InvalidPathException`
unless `file_exists(name)`; cache the file when it is not cached yet;
return `cached_files.at(name)`. -/
def getFile (s : FS) (d : Nat) (name : String) : Except Err FileObj × FS :=
  if ¬ fileExistsB s d name then (Except.error Err.invalidPath, s)
  else if ¬ fileIsCachedB s d name then cachedFilesAt (cacheFile s d name) d name
  else cachedFilesAt s d name

/-- Embeds `Directory::get_directory(name)`: throw
`InvalidPathException` unless `directory_exists(name)`; cache the child
directory when it is not cached yet; return
`cached_directories.at(name)`. -/
def getDirectory (s : FS) (d : Nat) (name : String) : Except Err Nat × FS :=
  if ¬ directoryExistsB s d name then (Except.error Err.invalidPath, s)
  else if ¬ directoryIsCachedB s d name then
    cachedDirsAt (cacheDirectory s d name) d name
  else cachedDirsAt s d name

/-- Embeds `Directory::open_file(name)`: `create_file(name)` when
`file_exists(name)` is false, then `get_file(name)`.  The function is
`noexcept`, so an error escaping `get_file` means the call does not
complete normally. -/
def openFileDir (s : FS) (d : Nat) (name : String) : Except Err FileObj × FS :=
  let s0 :=
    if ¬ fileExistsB s d name then
      { s with host := hostCreateFile s.host (dirPath s d ++ [name]) }
    else s
  getFile s0 d name

/-- Embeds `Directory::open_directory(name)`: `create_directory(name)`
when `directory_exists(name)` is false, then `get_directory(name)`. -/
def openDirectoryDir (s : FS) (d : Nat) (name : String) : Except Err Nat × FS :=
  let s0 :=
    if ¬ directoryExistsB s d name then
      { s with host := hostCreateDir s.host (dirPath s d ++ [name]) }
    else s
  getDirectory s0 d name

/-- Embeds `Directory::get_parent()`: throw `InvalidPathException` when
the parent pointer is null, otherwise return the parent. -/
def getParent (s : FS) (d : Nat) : Except Err Nat :=
  match (getNode s d).parent with
  | none => Except.error Err.invalidPath
  | some p => Except.ok p

/-- Embeds the loop of `FileSystem::open_file(path)` over the path's
segments (the `is_relative` guard precedes the loop; every claim about
the walk concerns relative paths, given here as their segment list).
Each non-final segment — with no case for `.`, empty or `..` — is
passed to `get_directory`; the final segment goes to
`Directory::open_file`; an empty segment list falls out of the loop
into `FileNotFoundException`. -/
def openFileFS (s : FS) (d : Nat) : List String → Except Err FileObj × FS
  | [] => (Except.error Err.entryNotFound, s)
  | [last] => openFileDir s d last
  | seg :: rest =>
      match getDirectory s d seg with
      | (Except.ok d2, s2) => openFileFS s2 d2 rest
      | (Except.error e, s2) => (Except.error e, s2)

/-- Embeds the loop of `FileSystem::open_directory(path)`: the final
segment goes to `Directory::open_directory`; a non-final `.` or empty
segment is skipped; a non-final `..` moves to `get_parent()`; any other
non-final segment is passed to `get_directory`; an empty segment list
falls out of the loop into `FileNotFoundException`. -/
def openDirectoryFS (s : FS) (d : Nat) : List String → Except Err Nat × FS
  | [] => (Except.error Err.entryNotFound, s)
  | [last] => openDirectoryDir s d last
  | seg :: rest =>
      if seg = "." ∨ seg = "" then openDirectoryFS s d rest
      else if seg = ".." then
        match getParent s d with
        | Except.ok p => openDirectoryFS s p rest
        | Except.error e => (Except.error e, s)
      else
        match getDirectory s d seg with
        | (Except.ok d2, s2) => openDirectoryFS s2 d2 rest
        | (Except.error e, s2) => (Except.error e, s2)

/-! ## Claim C2: the shape of the segment walk

The claim describes one walk shared by `open_file` and `open_directory`:
non-final segments are processed by the `.`-skip / `..`-parent /
descend rule, and only the final segment receives the terminal
operation.  The definitions below state that walk in the claim's own
shape (prefix walk, then terminal on the last segment), to be compared
with the loop embeddings above. -/

/-- Walks a list of non-final segments by the claim's rule: `.` or
empty is a no-op, `..` moves to `get_parent()`, anything else descends
via `get_directory`. -/
def walkSpec (s : FS) (d : Nat) : List String → Except Err Nat × FS
  | [] => (Except.ok d, s)
  | seg :: rest =>
      if seg = "." ∨ seg = "" then walkSpec s d rest
      else if seg = ".." then
        match getParent s d with
        | Except.ok p => walkSpec s p rest
        | Except.error e => (Except.error e, s)
      else
        match getDirectory s d seg with
        | (Except.ok d2, s2) => walkSpec s2 d2 rest
        | (Except.error e, s2) => (Except.error e, s2)

/-- Walks a list of non-final segments the way
`FileSystem::open_file`'s loop actually does: every segment, `.`,
empty and `..` included, is passed to `get_directory` as a literal
name. -/
def walkLit (s : FS) (d : Nat) : List String → Except Err Nat × FS
  | [] => (Except.ok d, s)
  | seg :: rest =>
      match getDirectory s d seg with
      | (Except.ok d2, s2) => walkLit s2 d2 rest
      | (Except.error e, s2) => (Except.error e, s2)

/-- Claim C2's description of `FileSystem::open_directory`: walk the
non-final segments by the rule, then apply the terminal operation to
the final segment. -/
def specOpenDirectory (s : FS) (d : Nat) (segs : List String) :
    Except Err Nat × FS :=
  match segs.getLast? with
  | none => (Except.error Err.entryNotFound, s)
  | some last =>
      match walkSpec s d segs.dropLast with
      | (Except.ok d2, s2) => openDirectoryDir s2 d2 last
      | (Except.error e, s2) => (Except.error e, s2)

/-- Claim C2's description of `FileSystem::open_file`, and the same
statement with the literal walk in place of the rule-based walk. -/
def specOpenFile (s : FS) (d : Nat) (segs : List String) :
    Except Err FileObj × FS :=
  match segs.getLast? with
  | none => (Except.error Err.entryNotFound, s)
  | some last =>
      match walkSpec s d segs.dropLast with
      | (Except.ok d2, s2) => openFileDir s2 d2 last
      | (Except.error e, s2) => (Except.error e, s2)

/-- Restatement of `FileSystem::open_file` in prefix-walk shape, with
the literal walk `walkLit` on the non-final segments. -/
def litOpenFile (s : FS) (d : Nat) (segs : List String) :
    Except Err FileObj × FS :=
  match segs.getLast? with
  | none => (Except.error Err.entryNotFound, s)
  | some last =>
      match walkLit s d segs.dropLast with
      | (Except.ok d2, s2) => openFileDir s2 d2 last
      | (Except.error e, s2) => (Except.error e, s2)

/-- Claim C2 amended: `FileSystem::open_directory` walks the non-final
segments exactly by the claimed rule (`.`/empty skipped, `..` to
`get_parent()`, otherwise `get_directory(segment)`), applying the
terminal operation only to the final segment; `FileSystem::open_file`
has the same prefix-walk shape but passes every non-final segment —
`.`, empty and `..` included — to `get_directory` as a literal name. -/
theorem C2_walk_shapes (s : FS) (d : Nat) (segs : List String) :
    openDirectoryFS s d segs = specOpenDirectory s d segs ∧
    openFileFS s d segs = litOpenFile s d segs := by
  induction segs generalizing s d with
  | nil => exact ⟨rfl, rfl⟩
  | cons seg rest ih =>
    cases rest with
    | nil =>
      refine ⟨?_, ?_⟩
      · simp [openDirectoryFS, specOpenDirectory, walkSpec]
      · simp [openFileFS, litOpenFile, walkLit]
    | cons r rs =>
      obtain ⟨last, hL⟩ : ∃ last, (r :: rs).getLast? = some last := by
        cases h : (r :: rs).getLast? with
        | none => simp [List.getLast?_eq_none_iff] at h
        | some x => exact ⟨x, rfl⟩
      refine ⟨?_, ?_⟩
      · by_cases hdot : seg = "." ∨ seg = ""
        · have h1 : openDirectoryFS s d (seg :: r :: rs) =
              openDirectoryFS s d (r :: rs) := by
            simp [openDirectoryFS, hdot]
          have h2 : specOpenDirectory s d (seg :: r :: rs) =
              specOpenDirectory s d (r :: rs) := by
            simp [specOpenDirectory, walkSpec, hdot, hL, List.getLast?_cons_cons,
              List.dropLast_cons₂]
          rw [h1, h2]
          exact (ih s d).1
        · by_cases hup : seg = ".."
          · cases hp : getParent s d with
            | ok p =>
              have h1 : openDirectoryFS s d (seg :: r :: rs) =
                  openDirectoryFS s p (r :: rs) := by
                simp [openDirectoryFS, hdot, hup, hp]
              have h2 : specOpenDirectory s d (seg :: r :: rs) =
                  specOpenDirectory s p (r :: rs) := by
                simp [specOpenDirectory, walkSpec, hdot, hup, hp, hL,
                  List.getLast?_cons_cons, List.dropLast_cons₂]
              rw [h1, h2]
              exact (ih s p).1
            | error e =>
              simp [openDirectoryFS, specOpenDirectory, walkSpec, hdot, hup, hp, hL,
                List.getLast?_cons_cons, List.dropLast_cons₂]
          · cases hg : getDirectory s d seg with
            | mk res s2 =>
              cases res with
              | ok d2 =>
                have h1 : openDirectoryFS s d (seg :: r :: rs) =
                    openDirectoryFS s2 d2 (r :: rs) := by
                  simp [openDirectoryFS, hdot, hup, hg]
                have h2 : specOpenDirectory s d (seg :: r :: rs) =
                    specOpenDirectory s2 d2 (r :: rs) := by
                  simp [specOpenDirectory, walkSpec, hdot, hup, hg, hL,
                    List.getLast?_cons_cons, List.dropLast_cons₂]
                rw [h1, h2]
                exact (ih s2 d2).1
              | error e =>
                simp [openDirectoryFS, specOpenDirectory, walkSpec, hdot, hup,
                  hg, hL, List.getLast?_cons_cons, List.dropLast_cons₂]
      · cases hg : getDirectory s d seg with
        | mk res s2 =>
          cases res with
          | ok d2 =>
            have h1 : openFileFS s d (seg :: r :: rs) =
                openFileFS s2 d2 (r :: rs) := by
              simp [openFileFS, hg]
            have h2 : litOpenFile s d (seg :: r :: rs) =
                litOpenFile s2 d2 (r :: rs) := by
              simp [litOpenFile, walkLit, hg, hL, List.getLast?_cons_cons,
                List.dropLast_cons₂]
            rw [h1, h2]
            exact (ih s2 d2).2
          | error e =>
            simp [openFileFS, litOpenFile, walkLit, hg, hL,
              List.getLast?_cons_cons, List.dropLast_cons₂]

/-- Claim C2 as written is false for `FileSystem::open_file`: with a
host holding directories at `[]` and `["r"]` and a `FileSystem` rooted
at `["r"]`, the path `"../x"` would, by the claimed rule, move to
`get_parent()` of the root and fail with `InvalidPath`; the actual
`open_file` loop instead passes the literal name `".."` to
`get_directory`, descends into a cached `".."` child, and succeeds,
creating and returning a file whose stored path is `["r", "..", "x"]`. -/
theorem C2_counterexample :
    (openFileFS (initFS [([], HKind.dir), (["r"], HKind.dir)] ["r"]) 0
        ["..", "x"]).1 = Except.ok ⟨["r", "..", "x"], 0⟩ ∧
    (specOpenFile (initFS [([], HKind.dir), (["r"], HKind.dir)] ["r"]) 0
        ["..", "x"]).1 = Except.error Err.invalidPath := by
  constructor <;> rfl

/-! ## Basic lemmas about the host and cache primitives -/

theorem normSegs_no_special (l : List String) :
    ∀ stack, (∀ x ∈ stack, x ≠ "." ∧ x ≠ "" ∧ x ≠ "..") →
      ∀ x ∈ normSegs stack l, x ≠ "." ∧ x ≠ "" ∧ x ≠ ".." := by
  induction l with
  | nil => intro stack hs; simpa [normSegs] using hs
  | cons s rest ih =>
    intro stack hs x hx
    rw [normSegs] at hx
    by_cases h1 : s = "." ∨ s = ""
    · rw [if_pos h1] at hx
      exact ih stack hs x hx
    · rw [if_neg h1] at hx
      by_cases h2 : s = ".."
      · rw [if_pos h2] at hx
        refine ih stack.dropLast ?_ x hx
        intro y hy
        exact hs y (List.dropLast_subset _ hy)
      · rw [if_neg h2] at hx
        refine ih (stack ++ [s]) ?_ x hx
        intro y hy
        rcases List.mem_append.mp hy with hy | hy
        · exact hs y hy
        · have : y = s := by simpa using hy
          subst this
          push_neg at h1
          exact ⟨h1.1, h1.2, h2⟩

theorem normSegs_of_no_special (l : List String)
    (h : ∀ x ∈ l, x ≠ "." ∧ x ≠ "" ∧ x ≠ "..") :
    ∀ stack, normSegs stack l = stack ++ l := by
  induction l with
  | nil => intro stack; simp [normSegs]
  | cons s rest ih =>
    intro stack
    have hs := h s (List.mem_cons_self _ _)
    rw [normSegs, if_neg (by tauto), if_neg hs.2.2]
    rw [ih (fun x hx => h x (List.mem_cons_of_mem _ hx))]
    simp

/-- Normalization is idempotent: a normalized path has no `.`, empty or
`..` segments left, so normalizing it again changes nothing. -/
theorem normalizePath_idem (p : List String) :
    normalizePath (normalizePath p) = normalizePath p := by
  unfold normalizePath
  rw [normSegs_of_no_special _ (normSegs_no_special p [] (by simp)) []]
  simp

theorem alookup_some_mem {α : Type} {m : List (String × α)} {k : String} {v : α}
    (h : alookup m k = some v) : (k, v) ∈ m := by
  induction m with
  | nil => simp [alookup] at h
  | cons e rest ih =>
    rw [alookup] at h
    by_cases hk : k = e.1
    · subst hk
      simp at h
      subst h
      exact List.mem_cons_self _ _
    · simp [hk] at h
      exact List.mem_cons_of_mem _ (ih h)

theorem fileExistsB_iff (s : FS) (d : Nat) (name : String) :
    fileExistsB s d name = true ↔
      hostKind s.host (dirPath s d ++ [name]) = some HKind.file := by
  unfold fileExistsB directoryExistsB
  cases h : hostKind s.host (dirPath s d ++ [name]) with
  | none => simp [h]
  | some k => cases k <;> simp [h]

theorem directoryExistsB_iff (s : FS) (d : Nat) (name : String) :
    directoryExistsB s d name = true ↔
      hostKind s.host (dirPath s d ++ [name]) = some HKind.dir := by
  unfold directoryExistsB
  cases h : hostKind s.host (dirPath s d ++ [name]) with
  | none => simp [h]
  | some k => cases k <;> simp [h]

/-! ## Claim C4: error kinds of `get_file` / `get_directory` -/

/-- Claim C4 as written is false: `Directory::get_file` signals both a
missing host entry and a kind mismatch with `InvalidPathException` — the
`InvalidPath` kind — not with the `EntryNotFound` kind
(`FileNotFoundException`).  With a host directory at `["r", "d"]` and a
missing name, `get_file` returns the `InvalidPath` error in both
cases. -/
theorem C4_counterexample :
    (getFile (initFS [(["r"], HKind.dir), (["r", "d"], HKind.dir)] ["r"]) 0
        "d").1 = Except.error Err.invalidPath ∧
    (getFile (initFS [(["r"], HKind.dir)] ["r"]) 0 "missing").1
      = Except.error Err.invalidPath ∧
    Err.invalidPath ≠ Err.entryNotFound := by
  exact ⟨rfl, rfl, by decide⟩

/-- Claim C4 amended: for every name, `Directory::get_file(name)` fails
with the `InvalidPath` error kind (not `EntryNotFound`) whenever the
host entry is not a file — both when the host path does not exist and
when it exists as a directory — leaving the state untouched, and
symmetrically `get_directory(name)` fails with `InvalidPath` whenever
the host entry is not a directory; neither ever returns a handle of the
wrong kind. -/
theorem C4_error_kinds (s : FS) (d : Nat) (nameF nameD : String)
    (hF : hostKind s.host (dirPath s d ++ [nameF]) ≠ some HKind.file)
    (hD : hostKind s.host (dirPath s d ++ [nameD]) ≠ some HKind.dir) :
    getFile s d nameF = (Except.error Err.invalidPath, s) ∧
    getDirectory s d nameD = (Except.error Err.invalidPath, s) := by
  constructor
  · have hx : ¬ fileExistsB s d nameF = true := by
      rw [fileExistsB_iff]; exact hF
    unfold getFile
    simp [hx]
  · have hx : ¬ directoryExistsB s d nameD = true := by
      rw [directoryExistsB_iff]; exact hD
    unfold getDirectory
    simp [hx]

/-- Witness for `C4_error_kinds` at a concrete state: the root holds a
host directory `"d"` and a host file `"f"`; `get_file("d")` and
`get_directory("f")` both fail with `InvalidPath`. -/
theorem C4_error_kinds_witness :
    getFile (initFS [(["r"], HKind.dir), (["r", "d"], HKind.dir),
        (["r", "f"], HKind.file)] ["r"]) 0 "d"
      = (Except.error Err.invalidPath,
         initFS [(["r"], HKind.dir), (["r", "d"], HKind.dir),
           (["r", "f"], HKind.file)] ["r"]) ∧
    getDirectory (initFS [(["r"], HKind.dir), (["r", "d"], HKind.dir),
        (["r", "f"], HKind.file)] ["r"]) 0 "f"
      = (Except.error Err.invalidPath,
         initFS [(["r"], HKind.dir), (["r", "d"], HKind.dir),
           (["r", "f"], HKind.file)] ["r"]) :=
  C4_error_kinds _ 0 "d" "f" (by decide) (by decide)

/-! ## Claim C10: `open_file` on a name that is a host directory -/

/-- Claim C10: when `name` already exists on the host as a directory,
`Directory::open_file(name)` does not return a `File`:
`create_file(name)` (`std::ofstream`) has no host effect — the name is
still not a file afterwards — and the inner `get_file(name)` raises the
kind-mismatch `InvalidPathException`, which escapes the `noexcept`
`open_file`, so the call does not complete normally (modelled as the
error outcome).  The state is returned unchanged. -/
theorem C10_open_file_on_directory (s : FS) (d : Nat) (name : String)
    (h : hostKind s.host (dirPath s d ++ [name]) = some HKind.dir) :
    openFileDir s d name = (Except.error Err.invalidPath, s) ∧
    hostCreateFile s.host (dirPath s d ++ [name]) = s.host ∧
    hostKind ((openFileDir s d name).2).host (dirPath s d ++ [name])
      ≠ some HKind.file := by
  have hnf : ¬ fileExistsB s d name = true := by
    rw [fileExistsB_iff, h]; simp
  have hcreate : hostCreateFile s.host (dirPath s d ++ [name]) = s.host := by
    unfold hostCreateFile
    have : hostKind s.host (normalizePath (dirPath s d ++ [name]))
        = some HKind.dir := by
      unfold hostKind at h ⊢
      rw [normalizePath_idem]
      exact h
    simp [this]
  have hopen : openFileDir s d name = (Except.error Err.invalidPath, s) := by
    unfold openFileDir
    simp only [hnf, if_true, if_neg, ite_true]
    rw [hcreate]
    unfold getFile
    simp [hnf]
  refine ⟨hopen, hcreate, ?_⟩
  rw [hopen, h]
  simp

/-- Concrete state for the C10 witness: a fresh `FileSystem` rooted at
`["r"]` over a host where `"d"` is a directory under the root. -/
def dirHostFS : FS := initFS [(["r"], HKind.dir), (["r", "d"], HKind.dir)] ["r"]

/-- Witness for `C10_open_file_on_directory`: at `dirHostFS`, opening
the existing host directory `"d"` as a file errors with `InvalidPath`,
changes nothing, and leaves `"d"` a non-file. -/
theorem C10_open_file_on_directory_witness :
    openFileDir dirHostFS 0 "d" = (Except.error Err.invalidPath, dirHostFS) ∧
    hostCreateFile dirHostFS.host (dirPath dirHostFS 0 ++ ["d"])
      = dirHostFS.host ∧
    hostKind ((openFileDir dirHostFS 0 "d").2).host
      (dirPath dirHostFS 0 ++ ["d"]) ≠ some HKind.file :=
  C10_open_file_on_directory dirHostFS 0 "d" (by decide)

/-! ## Claim C7: no name is in both caches of one `Directory` -/

/-- Cache coherency with the host: every name in a `cached_files` map
denotes a host file, and every name in a `cached_directories` map
denotes a host directory (the guards `file_exists` / `directory_exists`
re-check the host before every insertion, and within one `FileSystem`
no operation removes a host entry or changes the kind of an existing
one). -/
def ConsistentCaches (s : FS) : Prop :=
  ∀ n ∈ s.nodes,
    (∀ e ∈ n.cfiles, hostKind s.host (n.path ++ [e.1]) = some HKind.file) ∧
    (∀ e ∈ n.cdirs, hostKind s.host (n.path ++ [e.1]) = some HKind.dir)

/-- Statement of claim C7's invariant: no name is present in the
file-cache and the directory-cache of the same `Directory` at once. -/
def NoNameInBothCaches (s : FS) : Prop :=
  ∀ n ∈ s.nodes, ∀ k : String,
    ¬ ((alookup n.cfiles k).isSome ∧ (alookup n.cdirs k).isSome)

theorem hostKind_norm (h : Host) (p : List String) :
    hostKind h (normalizePath p) = hostKind h p := by
  unfold hostKind
  rw [normalizePath_idem]

theorem hostKind_createFile_pres (h : Host) (p r : List String) (k : HKind)
    (hk : hostKind h r = some k) :
    hostKind (hostCreateFile h p) r = some k := by
  unfold hostCreateFile
  by_cases hg : hostKind h (normalizePath p) = none
      ∧ hostKind h (normalizePath p).dropLast = some HKind.dir
  · rw [if_pos hg]
    unfold hostKind at hk ⊢
    rw [plookup]
    by_cases he : normalizePath r = normalizePath p
    · exfalso
      have := hg.1
      rw [hostKind_norm] at this
      unfold hostKind at this
      rw [he] at hk
      rw [hk] at this
      exact Option.noConfusion this
    · rw [if_neg he]
      exact hk
  · rw [if_neg hg]
    exact hk

theorem hostKind_createDir_pres (h : Host) (p r : List String) (k : HKind)
    (hk : hostKind h r = some k) :
    hostKind (hostCreateDir h p) r = some k := by
  unfold hostCreateDir
  by_cases hg : hostKind h (normalizePath p) = none
      ∧ hostKind h (normalizePath p).dropLast = some HKind.dir
  · rw [if_pos hg]
    unfold hostKind at hk ⊢
    rw [plookup]
    by_cases he : normalizePath r = normalizePath p
    · exfalso
      have := hg.1
      rw [hostKind_norm] at this
      unfold hostKind at this
      rw [he] at hk
      rw [hk] at this
      exact Option.noConfusion this
    · rw [if_neg he]
      exact hk
  · rw [if_neg hg]
    exact hk

theorem mem_insertIfAbsent {α : Type} {m : List (String × α)} {k : String}
    {v : α} {e : String × α} (he : e ∈ insertIfAbsent m k v) :
    e ∈ m ∨ e = (k, v) := by
  unfold insertIfAbsent at he
  cases h : alookup m k with
  | some w => rw [h] at he; exact Or.inl he
  | none =>
    rw [h] at he
    rcases List.mem_cons.mp he with he | he
    · exact Or.inr he
    · exact Or.inl he

theorem getNode_consistent {s : FS} (hc : ConsistentCaches s) (d : Nat) :
    (∀ e ∈ (getNode s d).cfiles,
        hostKind s.host ((getNode s d).path ++ [e.1]) = some HKind.file) ∧
    (∀ e ∈ (getNode s d).cdirs,
        hostKind s.host ((getNode s d).path ++ [e.1]) = some HKind.dir) := by
  by_cases hd : d < s.nodes.length
  · have hmem : getNode s d ∈ s.nodes := by
      unfold getNode
      rw [List.getD_eq_getElem _ _ hd]
      exact List.getElem_mem _
    exact hc _ hmem
  · unfold getNode
    rw [List.getD_eq_default _ _ (Nat.le_of_not_lt hd)]
    exact ⟨fun e he => by simp at he, fun e he => by simp at he⟩

theorem consistent_cacheFile {s : FS} {d : Nat} {name : String}
    (hc : ConsistentCaches s)
    (hf : hostKind s.host (dirPath s d ++ [name]) = some HKind.file) :
    ConsistentCaches (cacheFile s d name) := by
  intro n hn
  have hhost : (cacheFile s d name).host = s.host := rfl
  rw [hhost]
  unfold cacheFile at hn
  simp only at hn
  rcases List.mem_or_eq_of_mem_set hn with hn | rfl
  · exact hc n hn
  · refine ⟨fun e he => ?_, fun e he => ?_⟩
    · rcases mem_insertIfAbsent he with he | rfl
      · exact (getNode_consistent hc d).1 e he
      · exact hf
    · exact (getNode_consistent hc d).2 e he

theorem consistent_cacheDirectory {s : FS} {d : Nat} {name : String}
    (hc : ConsistentCaches s)
    (hf : hostKind s.host (dirPath s d ++ [name]) = some HKind.dir) :
    ConsistentCaches (cacheDirectory s d name) := by
  intro n hn
  have hhost : (cacheDirectory s d name).host = s.host := rfl
  rw [hhost]
  unfold cacheDirectory at hn
  simp only at hn
  rcases List.mem_append.mp hn with hn | hn
  · rcases List.mem_or_eq_of_mem_set hn with hn | rfl
    · exact hc n hn
    · refine ⟨fun e he => ?_, fun e he => ?_⟩
      · exact (getNode_consistent hc d).1 e he
      · rcases mem_insertIfAbsent he with he | rfl
        · exact (getNode_consistent hc d).2 e he
        · exact hf
  · have : n = ⟨dirPath s d ++ [name], some d, [], []⟩ := by simpa using hn
    subst this
    exact ⟨fun e he => by simp at he, fun e he => by simp at he⟩

theorem cachedFilesAt_snd (s1 : FS) (d : Nat) (name : String) :
    (cachedFilesAt s1 d name).2 = s1 := by
  unfold cachedFilesAt
  cases alookup (getNode s1 d).cfiles name
  · rfl
  · rfl

theorem cachedDirsAt_snd (s1 : FS) (d : Nat) (name : String) :
    (cachedDirsAt s1 d name).2 = s1 := by
  unfold cachedDirsAt
  cases alookup (getNode s1 d).cdirs name
  · rfl
  · rfl

theorem getFile_snd (s : FS) (d : Nat) (name : String) :
    (getFile s d name).2 = s ∨
    (fileExistsB s d name = true ∧
      (getFile s d name).2 = cacheFile s d name) := by
  unfold getFile
  by_cases hex : ¬ fileExistsB s d name = true
  · rw [if_pos hex]
    exact Or.inl rfl
  · rw [if_neg hex]
    rw [not_not] at hex
    by_cases hcr : ¬ fileIsCachedB s d name = true
    · rw [if_pos hcr]
      exact Or.inr ⟨hex, cachedFilesAt_snd _ _ _⟩
    · rw [if_neg hcr]
      exact Or.inl (cachedFilesAt_snd _ _ _)

theorem getDirectory_snd (s : FS) (d : Nat) (name : String) :
    (getDirectory s d name).2 = s ∨
    (directoryExistsB s d name = true ∧
      (getDirectory s d name).2 = cacheDirectory s d name) := by
  unfold getDirectory
  by_cases hex : ¬ directoryExistsB s d name = true
  · rw [if_pos hex]
    exact Or.inl rfl
  · rw [if_neg hex]
    rw [not_not] at hex
    by_cases hcr : ¬ directoryIsCachedB s d name = true
    · rw [if_pos hcr]
      exact Or.inr ⟨hex, cachedDirsAt_snd _ _ _⟩
    · rw [if_neg hcr]
      exact Or.inl (cachedDirsAt_snd _ _ _)

theorem consistent_getFile (s : FS) (d : Nat) (name : String)
    (hc : ConsistentCaches s) :
    ConsistentCaches (getFile s d name).2 := by
  rcases getFile_snd s d name with h | ⟨hex, h⟩
  · rw [h]; exact hc
  · rw [h]
    exact consistent_cacheFile hc ((fileExistsB_iff s d name).mp hex)

theorem consistent_getDirectory (s : FS) (d : Nat) (name : String)
    (hc : ConsistentCaches s) :
    ConsistentCaches (getDirectory s d name).2 := by
  rcases getDirectory_snd s d name with h | ⟨hex, h⟩
  · rw [h]; exact hc
  · rw [h]
    exact consistent_cacheDirectory hc ((directoryExistsB_iff s d name).mp hex)

theorem consistent_createFileHost {s : FS} (p : List String)
    (hc : ConsistentCaches s) :
    ConsistentCaches { s with host := hostCreateFile s.host p } := by
  intro n hn
  refine ⟨fun e he => ?_, fun e he => ?_⟩
  · exact hostKind_createFile_pres _ _ _ _ ((hc n hn).1 e he)
  · exact hostKind_createFile_pres _ _ _ _ ((hc n hn).2 e he)

theorem consistent_createDirHost {s : FS} (p : List String)
    (hc : ConsistentCaches s) :
    ConsistentCaches { s with host := hostCreateDir s.host p } := by
  intro n hn
  refine ⟨fun e he => ?_, fun e he => ?_⟩
  · exact hostKind_createDir_pres _ _ _ _ ((hc n hn).1 e he)
  · exact hostKind_createDir_pres _ _ _ _ ((hc n hn).2 e he)

theorem consistent_openFileDir (s : FS) (d : Nat) (name : String)
    (hc : ConsistentCaches s) :
    ConsistentCaches (openFileDir s d name).2 := by
  unfold openFileDir
  by_cases hex : ¬ fileExistsB s d name = true
  · rw [if_pos hex]
    exact consistent_getFile _ d name (consistent_createFileHost _ hc)
  · rw [if_neg hex]
    exact consistent_getFile _ d name hc

theorem consistent_openDirectoryDir (s : FS) (d : Nat) (name : String)
    (hc : ConsistentCaches s) :
    ConsistentCaches (openDirectoryDir s d name).2 := by
  unfold openDirectoryDir
  by_cases hex : ¬ directoryExistsB s d name = true
  · rw [if_pos hex]
    exact consistent_getDirectory _ d name (consistent_createDirHost _ hc)
  · rw [if_neg hex]
    exact consistent_getDirectory _ d name hc

/-! ## Arena access lemmas -/

theorem set_of_length_le {α : Type} (l : List α) (n : Nat) (a : α)
    (h : l.length ≤ n) : l.set n a = l := by
  induction l generalizing n with
  | nil => rfl
  | cons x xs ih =>
    cases n with
    | zero => exact absurd h (by simp)
    | succ m =>
      simp only [List.set]
      rw [ih m (by simpa using h)]

theorem getD_set_self {α : Type} (l : List α) (i : Nat) (a dflt : α)
    (h : i < l.length) : (l.set i a).getD i dflt = a := by
  induction l generalizing i with
  | nil => simp at h
  | cons x xs ih =>
    cases i with
    | zero => rfl
    | succ j => exact ih j (by simpa using h)

theorem getD_set_ne {α : Type} (l : List α) (i j : Nat) (a dflt : α)
    (h : i ≠ j) : (l.set i a).getD j dflt = l.getD j dflt := by
  induction l generalizing i j with
  | nil => rfl
  | cons x xs ih =>
    cases i with
    | zero =>
      cases j with
      | zero => exact absurd rfl h
      | succ k => rfl
    | succ i2 =>
      cases j with
      | zero => rfl
      | succ k => exact ih i2 k (fun he => h (by rw [he]))

theorem getD_append_lt {α : Type} (l1 l2 : List α) (j : Nat) (dflt : α)
    (h : j < l1.length) : (l1 ++ l2).getD j dflt = l1.getD j dflt := by
  induction l1 generalizing j with
  | nil => simp at h
  | cons x xs ih =>
    cases j with
    | zero => rfl
    | succ k => exact ih k (by simpa using h)

theorem getD_append_ge {α : Type} (l1 l2 : List α) (j : Nat) (dflt : α)
    (h : l1.length ≤ j) : (l1 ++ l2).getD j dflt = l2.getD (j - l1.length) dflt := by
  induction l1 generalizing j with
  | nil => simp
  | cons x xs ih =>
    cases j with
    | zero => exact absurd h (by simp)
    | succ k =>
      have h1 : ((x :: xs) ++ l2).getD (k + 1) dflt = (xs ++ l2).getD k dflt := rfl
      have h2 : (k + 1) - (x :: xs).length = k - xs.length := by
        simp [Nat.succ_sub_succ]
      rw [h1, h2, ih k (by simpa using h)]

theorem getD_ge {α : Type} (l : List α) (j : Nat) (dflt : α)
    (h : l.length ≤ j) : l.getD j dflt = dflt := by
  induction l generalizing j with
  | nil => rfl
  | cons x xs ih =>
    cases j with
    | zero => exact absurd h (by simp)
    | succ k => exact ih k (by simpa using h)

theorem length_cacheFile (s : FS) (d : Nat) (name : String) :
    (cacheFile s d name).nodes.length = s.nodes.length := by
  unfold cacheFile
  simp

theorem length_cacheDirectory (s : FS) (d : Nat) (name : String) :
    (cacheDirectory s d name).nodes.length = s.nodes.length + 1 := by
  unfold cacheDirectory
  simp

theorem getNode_cacheFile_eq (s : FS) (d : Nat) (name : String) (i : Nat)
    (h : i < s.nodes.length) :
    getNode (cacheFile s d name) i =
      if i = d then
        { getNode s d with
          cfiles := insertIfAbsent (getNode s d).cfiles name
            ⟨dirPath s d ++ [name], s.nextOid⟩ }
      else getNode s i := by
  by_cases hij : i = d
  · subst hij
    rw [if_pos rfl]
    unfold cacheFile getNode
    simp only
    rw [getD_set_self _ _ _ _ h]
  · rw [if_neg hij]
    unfold cacheFile getNode
    simp only
    rw [getD_set_ne _ _ _ _ _ (fun he => hij he.symm)]

theorem getNode_cacheFile_ge (s : FS) (d : Nat) (name : String) (i : Nat)
    (h : s.nodes.length ≤ i) :
    getNode (cacheFile s d name) i = getNode s i := by
  unfold cacheFile getNode
  simp only
  rw [getD_ge _ _ _ (by simpa using h), getD_ge _ _ _ h]

theorem getNode_cacheDirectory_lt (s : FS) (d : Nat) (name : String) (i : Nat)
    (h : i < s.nodes.length) :
    getNode (cacheDirectory s d name) i =
      if i = d then
        { getNode s d with
          cdirs := insertIfAbsent (getNode s d).cdirs name s.nodes.length }
      else getNode s i := by
  unfold cacheDirectory getNode
  simp only
  rw [getD_append_lt _ _ _ _ (by simpa using h)]
  by_cases hij : i = d
  · subst hij
    rw [if_pos rfl, getD_set_self _ _ _ _ h]
  · rw [if_neg hij, getD_set_ne _ _ _ _ _ (fun he => hij he.symm)]

theorem getNode_cacheDirectory_last (s : FS) (d : Nat) (name : String) :
    getNode (cacheDirectory s d name) s.nodes.length =
      ⟨dirPath s d ++ [name], some d, [], []⟩ := by
  unfold cacheDirectory getNode
  simp only
  rw [getD_append_ge _ _ _ _ (by simp)]
  simp

theorem getNode_cacheDirectory_gt (s : FS) (d : Nat) (name : String) (i : Nat)
    (h : s.nodes.length + 1 ≤ i) :
    getNode (cacheDirectory s d name) i = getNode s i := by
  unfold cacheDirectory getNode
  simp only
  rw [getD_ge _ _ _ (by simpa using h), getD_ge _ _ _ (by omega)]

theorem noBoth_of_consistent {s : FS} (hc : ConsistentCaches s) :
    NoNameInBothCaches s := by
  intro n hn k hk
  obtain ⟨f, hf⟩ := Option.isSome_iff_exists.mp hk.1
  obtain ⟨j, hj⟩ := Option.isSome_iff_exists.mp hk.2
  have h1 := (hc n hn).1 (k, f) (alookup_some_mem hf)
  have h2 := (hc n hn).2 (k, j) (alookup_some_mem hj)
  rw [h1] at h2
  exact HKind.noConfusion (Option.some.inj h2)

/-- Shared concrete example state: a `FileSystem` rooted at `["r"]`
whose root has cached the host file `"a"` and the host directory
`"dd"`. -/
def exampleFS : FS :=
  ⟨[(["r"], HKind.dir), (["r", "a"], HKind.file), (["r", "dd"], HKind.dir)],
   [⟨["r"], none, [("a", ⟨["r", "a"], 0⟩)], [("dd", 1)]⟩,
    ⟨["r", "dd"], some 0, [], []⟩], 1⟩

/-- Claim C7: in every state whose caches agree with the host (which
the guarded insertions maintain), no name is present in the file-cache
and the directory-cache of the same `Directory` at the same time, and
each public `Directory` operation — `get_file`, `get_directory`,
`open_file`, `open_directory` — preserves the agreement and hence the
invariant. -/
theorem C7_no_name_in_both_caches (s : FS) (d : Nat) (name : String)
    (hc : ConsistentCaches s) :
    NoNameInBothCaches s ∧
    ConsistentCaches (getFile s d name).2 ∧
    ConsistentCaches (getDirectory s d name).2 ∧
    ConsistentCaches (openFileDir s d name).2 ∧
    ConsistentCaches (openDirectoryDir s d name).2 ∧
    NoNameInBothCaches (getFile s d name).2 ∧
    NoNameInBothCaches (getDirectory s d name).2 ∧
    NoNameInBothCaches (openFileDir s d name).2 ∧
    NoNameInBothCaches (openDirectoryDir s d name).2 := by
  refine ⟨noBoth_of_consistent hc,
    consistent_getFile s d name hc,
    consistent_getDirectory s d name hc,
    consistent_openFileDir s d name hc,
    consistent_openDirectoryDir s d name hc,
    noBoth_of_consistent (consistent_getFile s d name hc),
    noBoth_of_consistent (consistent_getDirectory s d name hc),
    noBoth_of_consistent (consistent_openFileDir s d name hc),
    noBoth_of_consistent (consistent_openDirectoryDir s d name hc)⟩

/-- Witness for `C7_no_name_in_both_caches` at the concrete state
`exampleFS` and the cached name `"a"`. -/
theorem C7_no_name_in_both_caches_witness :
    NoNameInBothCaches exampleFS ∧
    ConsistentCaches (getFile exampleFS 0 "a").2 ∧
    ConsistentCaches (getDirectory exampleFS 0 "a").2 ∧
    ConsistentCaches (openFileDir exampleFS 0 "a").2 ∧
    ConsistentCaches (openDirectoryDir exampleFS 0 "a").2 ∧
    NoNameInBothCaches (getFile exampleFS 0 "a").2 ∧
    NoNameInBothCaches (getDirectory exampleFS 0 "a").2 ∧
    NoNameInBothCaches (openFileDir exampleFS 0 "a").2 ∧
    NoNameInBothCaches (openDirectoryDir exampleFS 0 "a").2 :=
  C7_no_name_in_both_caches exampleFS 0 "a" (by unfold ConsistentCaches; decide)

/-! ## Claim C9: `get_parent` at the root and below -/

/-- Invariant tying parent pointers to the tree shape: the arena is
nonempty, the root (slot 0, the directory the `FileSystem` constructor
builds with `nullptr` parent) has no parent, and every other
constructed `Directory` has one (`cache_directory` always passes
`this`). -/
def RootedParents (s : FS) : Prop :=
  0 < s.nodes.length ∧
  (getNode s 0).parent = none ∧
  ∀ i, i < s.nodes.length → 0 < i → (getNode s i).parent.isSome = true

theorem parent_cacheFile (s : FS) (d : Nat) (name : String) (i : Nat) :
    (getNode (cacheFile s d name) i).parent = (getNode s i).parent := by
  by_cases h : i < s.nodes.length
  · rw [getNode_cacheFile_eq s d name i h]
    by_cases hij : i = d
    · subst hij
      rw [if_pos rfl]
    · rw [if_neg hij]
  · rw [getNode_cacheFile_ge s d name i (Nat.le_of_not_lt h)]

theorem rooted_cacheFile {s : FS} (d : Nat) (name : String)
    (hr : RootedParents s) : RootedParents (cacheFile s d name) := by
  refine ⟨by rw [length_cacheFile]; exact hr.1, ?_, ?_⟩
  · rw [parent_cacheFile]
    exact hr.2.1
  · intro i hi h0
    rw [parent_cacheFile]
    exact hr.2.2 i (by rwa [length_cacheFile] at hi) h0

theorem rooted_cacheDirectory {s : FS} (d : Nat) (name : String)
    (hr : RootedParents s) : RootedParents (cacheDirectory s d name) := by
  refine ⟨by rw [length_cacheDirectory]; omega, ?_, ?_⟩
  · rw [getNode_cacheDirectory_lt s d name 0 hr.1]
    by_cases h0 : 0 = d
    · rw [if_pos h0]
      exact h0 ▸ hr.2.1
    · rw [if_neg h0]
      exact hr.2.1
  · intro i hi h0
    rw [length_cacheDirectory] at hi
    by_cases hlt : i < s.nodes.length
    · rw [getNode_cacheDirectory_lt s d name i hlt]
      by_cases hij : i = d
      · rw [if_pos hij]
        subst hij
        exact hr.2.2 i hlt h0
      · rw [if_neg hij]
        exact hr.2.2 i hlt h0
    · have : i = s.nodes.length := by omega
      subst this
      rw [getNode_cacheDirectory_last]
      rfl

theorem rooted_getFile {s : FS} (d : Nat) (name : String)
    (hr : RootedParents s) : RootedParents (getFile s d name).2 := by
  rcases getFile_snd s d name with h | ⟨_, h⟩
  · rw [h]; exact hr
  · rw [h]; exact rooted_cacheFile d name hr

theorem rooted_getDirectory {s : FS} (d : Nat) (name : String)
    (hr : RootedParents s) : RootedParents (getDirectory s d name).2 := by
  rcases getDirectory_snd s d name with h | ⟨_, h⟩
  · rw [h]; exact hr
  · rw [h]; exact rooted_cacheDirectory d name hr

theorem rooted_host_update {s : FS} (h2 : Host)
    (hr : RootedParents s) : RootedParents { s with host := h2 } :=
  hr

theorem rooted_openFileDir {s : FS} (d : Nat) (name : String)
    (hr : RootedParents s) : RootedParents (openFileDir s d name).2 := by
  unfold openFileDir
  by_cases hex : ¬ fileExistsB s d name = true
  · rw [if_pos hex]
    exact rooted_getFile d name (rooted_host_update _ hr)
  · rw [if_neg hex]
    exact rooted_getFile d name hr

theorem rooted_openDirectoryDir {s : FS} (d : Nat) (name : String)
    (hr : RootedParents s) : RootedParents (openDirectoryDir s d name).2 := by
  unfold openDirectoryDir
  by_cases hex : ¬ directoryExistsB s d name = true
  · rw [if_pos hex]
    exact rooted_getDirectory d name (rooted_host_update _ hr)
  · rw [if_neg hex]
    exact rooted_getDirectory d name hr

/-- Claim C9: `Directory::get_parent()` on the root directory (the
directory a `FileSystem` is constructed with, built with a null parent)
fails with the `InvalidPath` error kind; on any non-root cached
directory it returns that directory's parent without error.  The
parent-shape invariant holds of a fresh `FileSystem` and is preserved
by every public `Directory` operation. -/
theorem C9_get_parent (h : Host) (rp : List String) (s : FS)
    (d i : Nat) (name : String)
    (hinv : RootedParents s) (h0 : 0 < i) (hlen : i < s.nodes.length) :
    getParent (initFS h rp) 0 = Except.error Err.invalidPath ∧
    RootedParents (initFS h rp) ∧
    (∃ p, getParent s i = Except.ok p) ∧
    RootedParents (getFile s d name).2 ∧
    RootedParents (getDirectory s d name).2 ∧
    RootedParents (openFileDir s d name).2 ∧
    RootedParents (openDirectoryDir s d name).2 := by
  refine ⟨rfl, ⟨by simp [initFS], rfl, ?_⟩, ?_, rooted_getFile d name hinv,
    rooted_getDirectory d name hinv, rooted_openFileDir d name hinv,
    rooted_openDirectoryDir d name hinv⟩
  · intro j hj hj0
    unfold initFS at hj
    simp at hj
    omega
  · obtain ⟨p, hp⟩ := Option.isSome_iff_exists.mp (hinv.2.2 i hlen h0)
    refine ⟨p, ?_⟩
    unfold getParent
    rw [hp]

/-- Witness for `C9_get_parent` at the concrete state `exampleFS`,
whose slot 1 is the cached child directory `"dd"` of the root. -/
theorem C9_get_parent_witness :
    getParent (initFS exampleFS.host ["r"]) 0 = Except.error Err.invalidPath ∧
    RootedParents (initFS exampleFS.host ["r"]) ∧
    (∃ p, getParent exampleFS 1 = Except.ok p) ∧
    RootedParents (getFile exampleFS 0 "a").2 ∧
    RootedParents (getDirectory exampleFS 0 "a").2 ∧
    RootedParents (openFileDir exampleFS 0 "a").2 ∧
    RootedParents (openDirectoryDir exampleFS 0 "a").2 :=
  C9_get_parent exampleFS.host ["r"] exampleFS 0 1 "a"
    (by unfold RootedParents; decide) (by decide) (by decide)

/-! ## Claim C8: `File::set_name` -/

/-- Embeds `std::filesystem::path::replace_filename(new_name)`:
replaces the final component of the path with the new name.  Note that
in C++ this MUTATES the receiver and returns a reference to it. -/
def replaceFilename (p : List String) (newName : String) : List String :=
  p.dropLast ++ [newName]

/-- Embeds `std::filesystem::rename(from_path, to_path)` for the calls
`File::set_name` can make.  Because `replace_filename` has already
mutated the member `path` when `rename` is called, both operands are
always the same path: on equal operands `rename` succeeds as a no-op
when the path exists and reports `std::filesystem_error` (`none` here)
when it does not.  The differing-operand branch (moving the entry) is
included for completeness but is unreachable from `setName`. -/
def hostRename (h : Host) (src dst : List String) : Option Host :=
  if normalizePath src = normalizePath dst then
    if (hostKind h src).isSome then some h else none
  else
    match hostKind h src with
    | none => none
    | some k =>
        some ((normalizePath dst, k) ::
          h.filter (fun e => decide (e.1 ≠ normalizePath src)))

/-- Embeds `File::set_name(new_name)` in the source's exact order:
`auto new_path = path.replace_filename(new_name);` first mutates the
member `path` (and `new_path` copies the mutated value), so the
following `std::filesystem::rename(path, new_path)` receives the new
path as both operands; the final `path = new_path;` stores the value
`path` already has.  The result is the rename outcome (`none`: the
rename threw `std::filesystem_error`; `set_name` is `noexcept`, so that
exception terminates the process) together with the value of the
member `path` after the call. -/
def setName (h : Host) (path : List String) (newName : String) :
    Option Host × List String :=
  (hostRename h (replaceFilename path newName) (replaceFilename path newName),
   replaceFilename path newName)

/-- Claim C8 meets a code bug: `set_name` never renames the host entry.
With a host file at `["r", "a.txt"]`, `set_name("b.txt")` mutates the
in-memory path to `["r", "b.txt"]` before calling `rename`, so `rename`
gets the not-yet-existing new path as both source and destination and
throws (outcome `none`; the exception escapes the `noexcept` function
and terminates the process).  The host still has `a.txt` and no
`b.txt`, while the claim requires the host entry to be renamed and the
call to succeed. -/
theorem C8_set_name_never_renames :
    (setName [(["r"], HKind.dir), (["r", "a.txt"], HKind.file)]
        ["r", "a.txt"] "b.txt").1 = none ∧
    (setName [(["r"], HKind.dir), (["r", "a.txt"], HKind.file)]
        ["r", "a.txt"] "b.txt").2 = ["r", "b.txt"] ∧
    hostKind [(["r"], HKind.dir), (["r", "a.txt"], HKind.file)]
      ["r", "b.txt"] = none ∧
    hostKind [(["r"], HKind.dir), (["r", "a.txt"], HKind.file)]
      ["r", "a.txt"] = some HKind.file := by
  refine ⟨?_, by decide, by decide, by decide⟩
  decide

/-! ## Claim C3: idempotent resolution

The proof plan: every operation only grows the state (host entries
persist with their kind, nodes keep their path and parent, cache
entries persist — nothing is ever evicted), and a successful operation
leaves behind exactly the host entry and cache entry that make a rerun
take the fully-cached fast path.  `FSLe s t` is that growth order. -/

/-- Host growth: every existing entry persists with its kind (nothing
in one `FileSystem`'s operations deletes a host entry or changes the
kind of an existing one). -/
def hostLe (h1 h2 : Host) : Prop :=
  ∀ p k, plookup h1 p = some k → plookup h2 p = some k

/-- State growth: the host grows, the arena only gains nodes, existing
nodes keep their path and parent, and their cache entries persist. -/
def FSLe (s t : FS) : Prop :=
  hostLe s.host t.host ∧
  s.nodes.length ≤ t.nodes.length ∧
  ∀ i, i < s.nodes.length →
    (getNode t i).path = (getNode s i).path ∧
    (getNode t i).parent = (getNode s i).parent ∧
    (∀ k v, alookup (getNode s i).cfiles k = some v →
      alookup (getNode t i).cfiles k = some v) ∧
    (∀ k v, alookup (getNode s i).cdirs k = some v →
      alookup (getNode t i).cdirs k = some v)

theorem FSLe_refl (s : FS) : FSLe s s :=
  ⟨fun _ _ h => h, Nat.le_refl _,
   fun _ _ => ⟨rfl, rfl, fun _ _ h => h, fun _ _ h => h⟩⟩

theorem FSLe_trans {s t u : FS} (h1 : FSLe s t) (h2 : FSLe t u) :
    FSLe s u := by
  refine ⟨fun p k h => h2.1 p k (h1.1 p k h), Nat.le_trans h1.2.1 h2.2.1, ?_⟩
  intro i hi
  have hit : i < t.nodes.length := Nat.lt_of_lt_of_le hi h1.2.1
  obtain ⟨hp1, hq1, hf1, hd1⟩ := h1.2.2 i hi
  obtain ⟨hp2, hq2, hf2, hd2⟩ := h2.2.2 i hit
  exact ⟨hp2.trans hp1, hq2.trans hq1,
    fun k v h => hf2 k v (hf1 k v h),
    fun k v h => hd2 k v (hd1 k v h)⟩

theorem alookup_insertIfAbsent_pres {α : Type} {m : List (String × α)}
    {k : String} {v : α} (k2 : String) (v2 : α)
    (h : alookup m k = some v) :
    alookup (insertIfAbsent m k2 v2) k = some v := by
  unfold insertIfAbsent
  cases h2 : alookup m k2 with
  | some w => exact h
  | none =>
    rw [alookup]
    by_cases hk : k = k2
    · subst hk
      rw [h] at h2
      exact Option.noConfusion h2
    · rw [if_neg hk]
      exact h

theorem plookup_cons_pres {h : Host} {r : List String} {k : HKind}
    (q : List String) (v : HKind) (hq : plookup h q = none)
    (hr : plookup h r = some k) : plookup ((q, v) :: h) r = some k := by
  rw [plookup]
  by_cases he : r = q
  · subst he
    rw [hr] at hq
    exact Option.noConfusion hq
  · rw [if_neg he]
    exact hr

theorem hostLe_createFile (h : Host) (p : List String) :
    hostLe h (hostCreateFile h p) := by
  intro r k hr
  unfold hostCreateFile
  by_cases hg : hostKind h (normalizePath p) = none
      ∧ hostKind h (normalizePath p).dropLast = some HKind.dir
  · rw [if_pos hg]
    refine plookup_cons_pres _ _ ?_ hr
    have := hg.1
    rw [hostKind_norm] at this
    exact this
  · rw [if_neg hg]
    exact hr

theorem hostLe_createDir (h : Host) (p : List String) :
    hostLe h (hostCreateDir h p) := by
  intro r k hr
  unfold hostCreateDir
  by_cases hg : hostKind h (normalizePath p) = none
      ∧ hostKind h (normalizePath p).dropLast = some HKind.dir
  · rw [if_pos hg]
    refine plookup_cons_pres _ _ ?_ hr
    have := hg.1
    rw [hostKind_norm] at this
    exact this
  · rw [if_neg hg]
    exact hr

theorem FSLe_cacheFile (s : FS) (d : Nat) (name : String) :
    FSLe s (cacheFile s d name) := by
  refine ⟨fun p k h => h, by rw [length_cacheFile], ?_⟩
  intro i hi
  rw [getNode_cacheFile_eq s d name i hi]
  by_cases hij : i = d
  · subst hij
    rw [if_pos rfl]
    exact ⟨rfl, rfl, fun k v h => alookup_insertIfAbsent_pres _ _ h,
      fun k v h => h⟩
  · rw [if_neg hij]
    exact ⟨rfl, rfl, fun _ _ h => h, fun _ _ h => h⟩

theorem FSLe_cacheDirectory (s : FS) (d : Nat) (name : String) :
    FSLe s (cacheDirectory s d name) := by
  refine ⟨fun p k h => h, by rw [length_cacheDirectory]; omega, ?_⟩
  intro i hi
  rw [getNode_cacheDirectory_lt s d name i hi]
  by_cases hij : i = d
  · subst hij
    rw [if_pos rfl]
    exact ⟨rfl, rfl, fun _ _ h => h,
      fun k v h => alookup_insertIfAbsent_pres _ _ h⟩
  · rw [if_neg hij]
    exact ⟨rfl, rfl, fun _ _ h => h, fun _ _ h => h⟩

theorem FSLe_createFileHost (s : FS) (p : List String) :
    FSLe s { s with host := hostCreateFile s.host p } :=
  ⟨hostLe_createFile s.host p, Nat.le_refl _,
   fun _ _ => ⟨rfl, rfl, fun _ _ h => h, fun _ _ h => h⟩⟩

theorem FSLe_createDirHost (s : FS) (p : List String) :
    FSLe s { s with host := hostCreateDir s.host p } :=
  ⟨hostLe_createDir s.host p, Nat.le_refl _,
   fun _ _ => ⟨rfl, rfl, fun _ _ h => h, fun _ _ h => h⟩⟩

theorem FSLe_getFile (s : FS) (d : Nat) (name : String) :
    FSLe s (getFile s d name).2 := by
  rcases getFile_snd s d name with h | ⟨_, h⟩
  · rw [h]; exact FSLe_refl s
  · rw [h]; exact FSLe_cacheFile s d name

theorem FSLe_getDirectory (s : FS) (d : Nat) (name : String) :
    FSLe s (getDirectory s d name).2 := by
  rcases getDirectory_snd s d name with h | ⟨_, h⟩
  · rw [h]; exact FSLe_refl s
  · rw [h]; exact FSLe_cacheDirectory s d name

theorem FSLe_openFileDir (s : FS) (d : Nat) (name : String) :
    FSLe s (openFileDir s d name).2 := by
  unfold openFileDir
  by_cases hex : ¬ fileExistsB s d name = true
  · rw [if_pos hex]
    exact FSLe_trans (FSLe_createFileHost s _) (FSLe_getFile _ d name)
  · rw [if_neg hex]
    exact FSLe_getFile s d name

theorem FSLe_openDirectoryDir (s : FS) (d : Nat) (name : String) :
    FSLe s (openDirectoryDir s d name).2 := by
  unfold openDirectoryDir
  by_cases hex : ¬ directoryExistsB s d name = true
  · rw [if_pos hex]
    exact FSLe_trans (FSLe_createDirHost s _) (FSLe_getDirectory _ d name)
  · rw [if_neg hex]
    exact FSLe_getDirectory s d name

theorem getFile_ok {s : FS} {d : Nat} {name : String} {f : FileObj} {s1 : FS}
    (h : getFile s d name = (Except.ok f, s1)) :
    d < s.nodes.length ∧
    fileExistsB s d name = true ∧
    alookup (getNode s1 d).cfiles name = some f ∧
    s1.host = s.host ∧
    (getNode s1 d).path = (getNode s d).path ∧
    (s1 = s ∨ s1 = cacheFile s d name) := by
  unfold getFile at h
  by_cases hex : ¬ fileExistsB s d name = true
  · rw [if_pos hex] at h
    exact absurd (congrArg Prod.fst h) (by simp)
  · rw [if_neg hex] at h
    rw [not_not] at hex
    by_cases hcr : ¬ fileIsCachedB s d name = true
    · rw [if_pos hcr] at h
      unfold cachedFilesAt at h
      cases halo : alookup (getNode (cacheFile s d name) d).cfiles name with
      | none =>
        rw [halo] at h
        exact absurd (congrArg Prod.fst h) (by simp)
      | some g =>
        rw [halo] at h
        rw [Prod.mk.injEq] at h
        obtain ⟨h1, h2⟩ := h
        have hgf : g = f := Except.ok.inj h1
        subst hgf
        subst h2
        have hd : d < s.nodes.length := by
          by_contra hge
          rw [getNode_cacheFile_ge s d name d (Nat.le_of_not_lt hge)] at halo
          unfold getNode at halo
          rw [getD_ge _ _ _ (Nat.le_of_not_lt hge)] at halo
          simp [alookup] at halo
        refine ⟨hd, hex, halo, rfl, ?_, Or.inr rfl⟩
        rw [getNode_cacheFile_eq s d name d hd, if_pos rfl]
    · rw [if_neg hcr] at h
      unfold cachedFilesAt at h
      cases halo : alookup (getNode s d).cfiles name with
      | none =>
        rw [halo] at h
        exact absurd (congrArg Prod.fst h) (by simp)
      | some g =>
        rw [halo] at h
        rw [Prod.mk.injEq] at h
        obtain ⟨h1, h2⟩ := h
        have hgf : g = f := Except.ok.inj h1
        subst hgf
        subst h2
        have hd : d < s.nodes.length := by
          by_contra hge
          unfold getNode at halo
          rw [getD_ge _ _ _ (Nat.le_of_not_lt hge)] at halo
          simp [alookup] at halo
        exact ⟨hd, hex, halo, rfl, rfl, Or.inl rfl⟩

theorem getDirectory_ok {s : FS} {d : Nat} {name : String} {j : Nat} {s1 : FS}
    (h : getDirectory s d name = (Except.ok j, s1)) :
    d < s.nodes.length ∧
    directoryExistsB s d name = true ∧
    alookup (getNode s1 d).cdirs name = some j ∧
    s1.host = s.host ∧
    (getNode s1 d).path = (getNode s d).path ∧
    (s1 = s ∨ s1 = cacheDirectory s d name) := by
  unfold getDirectory at h
  by_cases hex : ¬ directoryExistsB s d name = true
  · rw [if_pos hex] at h
    exact absurd (congrArg Prod.fst h) (by simp)
  · rw [if_neg hex] at h
    rw [not_not] at hex
    by_cases hcr : ¬ directoryIsCachedB s d name = true
    · rw [if_pos hcr] at h
      unfold cachedDirsAt at h
      cases halo : alookup (getNode (cacheDirectory s d name) d).cdirs name with
      | none =>
        rw [halo] at h
        exact absurd (congrArg Prod.fst h) (by simp)
      | some g =>
        rw [halo] at h
        rw [Prod.mk.injEq] at h
        obtain ⟨h1, h2⟩ := h
        have hgf : g = j := Except.ok.inj h1
        subst hgf
        subst h2
        have hd : d < s.nodes.length := by
          by_contra hge
          have hge2 := Nat.le_of_not_lt hge
          rcases Nat.eq_or_lt_of_le hge2 with heq | hlt
          · rw [← heq] at halo
            rw [getNode_cacheDirectory_last] at halo
            simp [alookup] at halo
          · rw [getNode_cacheDirectory_gt s d name d hlt] at halo
            unfold getNode at halo
            rw [getD_ge _ _ _ hge2] at halo
            simp [alookup] at halo
        refine ⟨hd, hex, halo, rfl, ?_, Or.inr rfl⟩
        rw [getNode_cacheDirectory_lt s d name d hd, if_pos rfl]
    · rw [if_neg hcr] at h
      unfold cachedDirsAt at h
      cases halo : alookup (getNode s d).cdirs name with
      | none =>
        rw [halo] at h
        exact absurd (congrArg Prod.fst h) (by simp)
      | some g =>
        rw [halo] at h
        rw [Prod.mk.injEq] at h
        obtain ⟨h1, h2⟩ := h
        have hgf : g = j := Except.ok.inj h1
        subst hgf
        subst h2
        have hd : d < s.nodes.length := by
          by_contra hge
          unfold getNode at halo
          rw [getD_ge _ _ _ (Nat.le_of_not_lt hge)] at halo
          simp [alookup] at halo
        exact ⟨hd, hex, halo, rfl, rfl, Or.inl rfl⟩

theorem getParent_ok {s : FS} {d p : Nat}
    (h : getParent s d = Except.ok p) :
    d < s.nodes.length ∧ (getNode s d).parent = some p := by
  unfold getParent at h
  cases hp : (getNode s d).parent with
  | none =>
    rw [hp] at h
    exact absurd h (by simp)
  | some q =>
    rw [hp] at h
    have hqp : q = p := Except.ok.inj h
    subst hqp
    refine ⟨?_, rfl⟩
    by_contra hge
    unfold getNode at hp
    rw [getD_ge _ _ _ (Nat.le_of_not_lt hge)] at hp
    simp at hp

theorem fileExistsB_mono {s t : FS} {d : Nat} {name : String}
    (hle : FSLe s t) (hd : d < s.nodes.length)
    (h : fileExistsB s d name = true) : fileExistsB t d name = true := by
  rw [fileExistsB_iff] at h ⊢
  have hpath := (hle.2.2 d hd).1
  unfold dirPath at h ⊢
  rw [hpath]
  unfold hostKind at h ⊢
  exact hle.1 _ _ h

theorem directoryExistsB_mono {s t : FS} {d : Nat} {name : String}
    (hle : FSLe s t) (hd : d < s.nodes.length)
    (h : directoryExistsB s d name = true) :
    directoryExistsB t d name = true := by
  rw [directoryExistsB_iff] at h ⊢
  have hpath := (hle.2.2 d hd).1
  unfold dirPath at h ⊢
  rw [hpath]
  unfold hostKind at h ⊢
  exact hle.1 _ _ h

theorem getFile_stable {s : FS} {d : Nat} {name : String} {f : FileObj}
    {s1 t : FS} (h : getFile s d name = (Except.ok f, s1))
    (hle : FSLe s1 t) :
    getFile t d name = (Except.ok f, t) ∧ fileExistsB t d name = true := by
  obtain ⟨hd, hex, halo, hhost, hpath, hcase⟩ := getFile_ok h
  have hlen1 : s1.nodes.length = s.nodes.length := by
    rcases hcase with rfl | rfl
    · rfl
    · exact length_cacheFile s d name
  have hd1 : d < s1.nodes.length := by omega
  have hex1 : fileExistsB s1 d name = true := by
    rw [fileExistsB_iff] at hex ⊢
    unfold dirPath at hex ⊢
    rw [hpath, hhost]
    exact hex
  have hext : fileExistsB t d name = true := fileExistsB_mono hle hd1 hex1
  have halot : alookup (getNode t d).cfiles name = some f :=
    (hle.2.2 d hd1).2.2.1 name f halo
  refine ⟨?_, hext⟩
  unfold getFile
  rw [if_neg (not_not_intro hext)]
  rw [if_neg (not_not_intro
    (show fileIsCachedB t d name = true by
      unfold fileIsCachedB
      rw [halot]
      rfl))]
  unfold cachedFilesAt
  rw [halot]

theorem getDirectory_stable {s : FS} {d : Nat} {name : String} {j : Nat}
    {s1 t : FS} (h : getDirectory s d name = (Except.ok j, s1))
    (hle : FSLe s1 t) :
    getDirectory t d name = (Except.ok j, t) ∧
      directoryExistsB t d name = true := by
  obtain ⟨hd, hex, halo, hhost, hpath, hcase⟩ := getDirectory_ok h
  have hlen1 : s.nodes.length ≤ s1.nodes.length := by
    rcases hcase with rfl | rfl
    · exact Nat.le_refl _
    · rw [length_cacheDirectory]; omega
  have hd1 : d < s1.nodes.length := by omega
  have hex1 : directoryExistsB s1 d name = true := by
    rw [directoryExistsB_iff] at hex ⊢
    unfold dirPath at hex ⊢
    rw [hpath, hhost]
    exact hex
  have hext : directoryExistsB t d name = true := directoryExistsB_mono hle hd1 hex1
  have halot : alookup (getNode t d).cdirs name = some j :=
    (hle.2.2 d hd1).2.2.2 name j halo
  refine ⟨?_, hext⟩
  unfold getDirectory
  rw [if_neg (not_not_intro hext)]
  rw [if_neg (not_not_intro
    (show directoryIsCachedB t d name = true by
      unfold directoryIsCachedB
      rw [halot]
      rfl))]
  unfold cachedDirsAt
  rw [halot]

theorem getParent_stable {s t : FS} {d p : Nat}
    (h : getParent s d = Except.ok p) (hle : FSLe s t) :
    getParent t d = Except.ok p := by
  obtain ⟨hd, hp⟩ := getParent_ok h
  unfold getParent
  rw [(hle.2.2 d hd).2.1, hp]

theorem openFileDir_stable {s : FS} {d : Nat} {name : String} {f : FileObj}
    {s1 t : FS} (h : openFileDir s d name = (Except.ok f, s1))
    (hle : FSLe s1 t) :
    openFileDir t d name = (Except.ok f, t) := by
  unfold openFileDir at h
  by_cases hex : ¬ fileExistsB s d name = true
  · rw [if_pos hex] at h
    obtain ⟨hg, hext⟩ := getFile_stable h hle
    unfold openFileDir
    rw [if_neg (not_not_intro hext)]
    exact hg
  · rw [if_neg hex] at h
    obtain ⟨hg, hext⟩ := getFile_stable h hle
    unfold openFileDir
    rw [if_neg (not_not_intro hext)]
    exact hg

theorem openDirectoryDir_stable {s : FS} {d : Nat} {name : String} {j : Nat}
    {s1 t : FS} (h : openDirectoryDir s d name = (Except.ok j, s1))
    (hle : FSLe s1 t) :
    openDirectoryDir t d name = (Except.ok j, t) := by
  unfold openDirectoryDir at h
  by_cases hex : ¬ directoryExistsB s d name = true
  · rw [if_pos hex] at h
    obtain ⟨hg, hext⟩ := getDirectory_stable h hle
    unfold openDirectoryDir
    rw [if_neg (not_not_intro hext)]
    exact hg
  · rw [if_neg hex] at h
    obtain ⟨hg, hext⟩ := getDirectory_stable h hle
    unfold openDirectoryDir
    rw [if_neg (not_not_intro hext)]
    exact hg

theorem FSLe_openFileFS (segs : List String) :
    ∀ s d, FSLe s (openFileFS s d segs).2 := by
  induction segs with
  | nil => intro s d; exact FSLe_refl s
  | cons seg rest ih =>
    cases rest with
    | nil =>
      intro s d
      have h1 : openFileFS s d [seg] = openFileDir s d seg := by
        simp [openFileFS]
      rw [h1]
      exact FSLe_openFileDir s d seg
    | cons r rs =>
      intro s d
      cases hg : getDirectory s d seg with
      | mk res s2 =>
        have hle1 : FSLe s s2 := by
          have hm := FSLe_getDirectory s d seg
          rw [hg] at hm
          exact hm
        cases res with
        | ok d2 =>
          have h1 : openFileFS s d (seg :: r :: rs) =
              openFileFS s2 d2 (r :: rs) := by
            simp [openFileFS, hg]
          rw [h1]
          exact FSLe_trans hle1 (ih s2 d2)
        | error e =>
          have h1 : openFileFS s d (seg :: r :: rs) = (Except.error e, s2) := by
            simp [openFileFS, hg]
          rw [h1]
          exact hle1

theorem FSLe_openDirectoryFS (segs : List String) :
    ∀ s d, FSLe s (openDirectoryFS s d segs).2 := by
  induction segs with
  | nil => intro s d; exact FSLe_refl s
  | cons seg rest ih =>
    cases rest with
    | nil =>
      intro s d
      have h1 : openDirectoryFS s d [seg] = openDirectoryDir s d seg := by
        simp [openDirectoryFS]
      rw [h1]
      exact FSLe_openDirectoryDir s d seg
    | cons r rs =>
      intro s d
      by_cases hdot : seg = "." ∨ seg = ""
      · have h1 : openDirectoryFS s d (seg :: r :: rs) =
            openDirectoryFS s d (r :: rs) := by
          simp [openDirectoryFS, hdot]
        rw [h1]
        exact ih s d
      · by_cases hup : seg = ".."
        · cases hp : getParent s d with
          | ok p =>
            have h1 : openDirectoryFS s d (seg :: r :: rs) =
                openDirectoryFS s p (r :: rs) := by
              simp [openDirectoryFS, hdot, hup, hp]
            rw [h1]
            exact ih s p
          | error e =>
            have h1 : openDirectoryFS s d (seg :: r :: rs) =
                (Except.error e, s) := by
              simp [openDirectoryFS, hdot, hup, hp]
            rw [h1]
            exact FSLe_refl s
        · cases hg : getDirectory s d seg with
          | mk res s2 =>
            have hle1 : FSLe s s2 := by
              have hm := FSLe_getDirectory s d seg
              rw [hg] at hm
              exact hm
            cases res with
            | ok d2 =>
              have h1 : openDirectoryFS s d (seg :: r :: rs) =
                  openDirectoryFS s2 d2 (r :: rs) := by
                simp [openDirectoryFS, hdot, hup, hg]
              rw [h1]
              exact FSLe_trans hle1 (ih s2 d2)
            | error e =>
              have h1 : openDirectoryFS s d (seg :: r :: rs) =
                  (Except.error e, s2) := by
                simp [openDirectoryFS, hdot, hup, hg]
              rw [h1]
              exact hle1

theorem openFileFS_stable (segs : List String) :
    ∀ s d (f : FileObj) s1 t,
      openFileFS s d segs = (Except.ok f, s1) → FSLe s1 t →
      openFileFS t d segs = (Except.ok f, t) := by
  induction segs with
  | nil =>
    intro s d f s1 t h _
    exact absurd (congrArg Prod.fst h) (by simp [openFileFS])
  | cons seg rest ih =>
    cases rest with
    | nil =>
      intro s d f s1 t h hle
      have h2 : openFileDir s d seg = (Except.ok f, s1) := by
        have he : openFileFS s d [seg] = openFileDir s d seg := by
          simp [openFileFS]
        rw [he] at h
        exact h
      have he2 : openFileFS t d [seg] = openFileDir t d seg := by
        simp [openFileFS]
      rw [he2]
      exact openFileDir_stable h2 hle
    | cons r rs =>
      intro s d f s1 t h hle
      cases hg : getDirectory s d seg with
      | mk res s2 =>
        cases res with
        | ok d2 =>
          have h2 : openFileFS s2 d2 (r :: rs) = (Except.ok f, s1) := by
            have he : openFileFS s d (seg :: r :: rs) =
                openFileFS s2 d2 (r :: rs) := by
              simp [openFileFS, hg]
            rw [he] at h
            exact h
          have hle2 : FSLe s2 t := by
            have hm := FSLe_openFileFS (r :: rs) s2 d2
            rw [h2] at hm
            exact FSLe_trans hm hle
          obtain ⟨hgt, _⟩ := getDirectory_stable hg hle2
          have he3 : openFileFS t d (seg :: r :: rs) =
              openFileFS t d2 (r :: rs) := by
            simp [openFileFS, hgt]
          rw [he3]
          exact ih s2 d2 f s1 t h2 hle
        | error e =>
          have he : openFileFS s d (seg :: r :: rs) = (Except.error e, s2) := by
            simp [openFileFS, hg]
          rw [he] at h
          exact absurd (congrArg Prod.fst h) (by simp)

theorem openDirectoryFS_stable (segs : List String) :
    ∀ s d (j : Nat) s1 t,
      openDirectoryFS s d segs = (Except.ok j, s1) → FSLe s1 t →
      openDirectoryFS t d segs = (Except.ok j, t) := by
  induction segs with
  | nil =>
    intro s d j s1 t h _
    exact absurd (congrArg Prod.fst h) (by simp [openDirectoryFS])
  | cons seg rest ih =>
    cases rest with
    | nil =>
      intro s d j s1 t h hle
      have h2 : openDirectoryDir s d seg = (Except.ok j, s1) := by
        have he : openDirectoryFS s d [seg] = openDirectoryDir s d seg := by
          simp [openDirectoryFS]
        rw [he] at h
        exact h
      have he2 : openDirectoryFS t d [seg] = openDirectoryDir t d seg := by
        simp [openDirectoryFS]
      rw [he2]
      exact openDirectoryDir_stable h2 hle
    | cons r rs =>
      intro s d j s1 t h hle
      by_cases hdot : seg = "." ∨ seg = ""
      · have he : openDirectoryFS s d (seg :: r :: rs) =
            openDirectoryFS s d (r :: rs) := by
          simp [openDirectoryFS, hdot]
        rw [he] at h
        have he2 : openDirectoryFS t d (seg :: r :: rs) =
            openDirectoryFS t d (r :: rs) := by
          simp [openDirectoryFS, hdot]
        rw [he2]
        exact ih s d j s1 t h hle
      · by_cases hup : seg = ".."
        · cases hp : getParent s d with
          | ok p =>
            have he : openDirectoryFS s d (seg :: r :: rs) =
                openDirectoryFS s p (r :: rs) := by
              simp [openDirectoryFS, hdot, hup, hp]
            rw [he] at h
            have hle2 : FSLe s t := by
              have hm := FSLe_openDirectoryFS (r :: rs) s p
              rw [h] at hm
              exact FSLe_trans hm hle
            have hpt : getParent t d = Except.ok p := getParent_stable hp hle2
            have he2 : openDirectoryFS t d (seg :: r :: rs) =
                openDirectoryFS t p (r :: rs) := by
              simp [openDirectoryFS, hdot, hup, hpt]
            rw [he2]
            exact ih s p j s1 t h hle
          | error e =>
            have he : openDirectoryFS s d (seg :: r :: rs) =
                (Except.error e, s) := by
              simp [openDirectoryFS, hdot, hup, hp]
            rw [he] at h
            exact absurd (congrArg Prod.fst h) (by simp)
        · cases hg : getDirectory s d seg with
          | mk res s2 =>
            cases res with
            | ok d2 =>
              have h2 : openDirectoryFS s2 d2 (r :: rs) = (Except.ok j, s1) := by
                have he : openDirectoryFS s d (seg :: r :: rs) =
                    openDirectoryFS s2 d2 (r :: rs) := by
                  simp [openDirectoryFS, hdot, hup, hg]
                rw [he] at h
                exact h
              have hle2 : FSLe s2 t := by
                have hm := FSLe_openDirectoryFS (r :: rs) s2 d2
                rw [h2] at hm
                exact FSLe_trans hm hle
              obtain ⟨hgt, _⟩ := getDirectory_stable hg hle2
              have he3 : openDirectoryFS t d (seg :: r :: rs) =
                  openDirectoryFS t d2 (r :: rs) := by
                simp [openDirectoryFS, hdot, hup, hgt]
              rw [he3]
              exact ih s2 d2 j s1 t h2 hle
            | error e =>
              have he : openDirectoryFS s d (seg :: r :: rs) =
                  (Except.error e, s2) := by
                simp [openDirectoryFS, hdot, hup, hg]
              rw [he] at h
              exact absurd (congrArg Prod.fst h) (by simp)

/-- Claim C3's no-duplicates invariant: within each `Directory`, each
cache map holds at most one entry per name (the C++ maps are keyed by
name; the embedding keeps the association lists duplicate-free through
the insert-if-absent of `std::unordered_map::insert`). -/
def KeysNodup (s : FS) : Prop :=
  ∀ n ∈ s.nodes,
    (n.cfiles.map Prod.fst).Nodup ∧ (n.cdirs.map Prod.fst).Nodup

theorem alookup_none_not_mem {α : Type} {m : List (String × α)} {k : String}
    (h : alookup m k = none) : k ∉ m.map Prod.fst := by
  induction m with
  | nil => simp
  | cons e rest ih =>
    rw [alookup] at h
    by_cases hk : k = e.1
    · rw [if_pos hk] at h
      exact Option.noConfusion h
    · rw [if_neg hk] at h
      simp only [List.map_cons, List.mem_cons]
      rintro (hc | hc)
      · exact hk hc
      · exact ih h hc

theorem nodup_insertIfAbsent {α : Type} {m : List (String × α)}
    (k : String) (v : α) (h : (m.map Prod.fst).Nodup) :
    ((insertIfAbsent m k v).map Prod.fst).Nodup := by
  unfold insertIfAbsent
  cases halo : alookup m k with
  | some w => exact h
  | none =>
    simp only [List.map_cons]
    exact List.Nodup.cons (alookup_none_not_mem halo) h

theorem getNode_keysNodup {s : FS} (hn : KeysNodup s) (d : Nat) :
    ((getNode s d).cfiles.map Prod.fst).Nodup ∧
    ((getNode s d).cdirs.map Prod.fst).Nodup := by
  by_cases hd : d < s.nodes.length
  · have hmem : getNode s d ∈ s.nodes := by
      unfold getNode
      rw [List.getD_eq_getElem _ _ hd]
      exact List.getElem_mem _
    exact hn _ hmem
  · unfold getNode
    rw [getD_ge _ _ _ (Nat.le_of_not_lt hd)]
    exact ⟨List.nodup_nil, List.nodup_nil⟩

theorem nodup_cacheFile {s : FS} (d : Nat) (name : String)
    (hn : KeysNodup s) : KeysNodup (cacheFile s d name) := by
  intro n hmem
  unfold cacheFile at hmem
  simp only at hmem
  rcases List.mem_or_eq_of_mem_set hmem with hmem | rfl
  · exact hn n hmem
  · exact ⟨nodup_insertIfAbsent _ _ (getNode_keysNodup hn d).1,
      (getNode_keysNodup hn d).2⟩

theorem nodup_cacheDirectory {s : FS} (d : Nat) (name : String)
    (hn : KeysNodup s) : KeysNodup (cacheDirectory s d name) := by
  intro n hmem
  unfold cacheDirectory at hmem
  simp only at hmem
  rcases List.mem_append.mp hmem with hmem | hmem
  · rcases List.mem_or_eq_of_mem_set hmem with hmem | rfl
    · exact hn n hmem
    · exact ⟨(getNode_keysNodup hn d).1,
        nodup_insertIfAbsent _ _ (getNode_keysNodup hn d).2⟩
  · have : n = ⟨dirPath s d ++ [name], some d, [], []⟩ := by simpa using hmem
    subst this
    exact ⟨List.nodup_nil, List.nodup_nil⟩

theorem nodup_getFile {s : FS} (d : Nat) (name : String)
    (hn : KeysNodup s) : KeysNodup (getFile s d name).2 := by
  rcases getFile_snd s d name with h | ⟨_, h⟩
  · rw [h]; exact hn
  · rw [h]; exact nodup_cacheFile d name hn

theorem nodup_getDirectory {s : FS} (d : Nat) (name : String)
    (hn : KeysNodup s) : KeysNodup (getDirectory s d name).2 := by
  rcases getDirectory_snd s d name with h | ⟨_, h⟩
  · rw [h]; exact hn
  · rw [h]; exact nodup_cacheDirectory d name hn

theorem nodup_openFileDir {s : FS} (d : Nat) (name : String)
    (hn : KeysNodup s) : KeysNodup (openFileDir s d name).2 := by
  unfold openFileDir
  by_cases hex : ¬ fileExistsB s d name = true
  · rw [if_pos hex]
    exact nodup_getFile d name hn
  · rw [if_neg hex]
    exact nodup_getFile d name hn

theorem nodup_openDirectoryDir {s : FS} (d : Nat) (name : String)
    (hn : KeysNodup s) : KeysNodup (openDirectoryDir s d name).2 := by
  unfold openDirectoryDir
  by_cases hex : ¬ directoryExistsB s d name = true
  · rw [if_pos hex]
    exact nodup_getDirectory d name hn
  · rw [if_neg hex]
    exact nodup_getDirectory d name hn

theorem nodup_openFileFS (segs : List String) :
    ∀ s d, KeysNodup s → KeysNodup (openFileFS s d segs).2 := by
  induction segs with
  | nil => intro s d hn; exact hn
  | cons seg rest ih =>
    cases rest with
    | nil =>
      intro s d hn
      have h1 : openFileFS s d [seg] = openFileDir s d seg := by
        simp [openFileFS]
      rw [h1]
      exact nodup_openFileDir d seg hn
    | cons r rs =>
      intro s d hn
      cases hg : getDirectory s d seg with
      | mk res s2 =>
        have hn2 : KeysNodup s2 := by
          have hm := nodup_getDirectory d seg hn
          rw [hg] at hm
          exact hm
        cases res with
        | ok d2 =>
          have h1 : openFileFS s d (seg :: r :: rs) =
              openFileFS s2 d2 (r :: rs) := by
            simp [openFileFS, hg]
          rw [h1]
          exact ih s2 d2 hn2
        | error e =>
          have h1 : openFileFS s d (seg :: r :: rs) = (Except.error e, s2) := by
            simp [openFileFS, hg]
          rw [h1]
          exact hn2

theorem nodup_openDirectoryFS (segs : List String) :
    ∀ s d, KeysNodup s → KeysNodup (openDirectoryFS s d segs).2 := by
  induction segs with
  | nil => intro s d hn; exact hn
  | cons seg rest ih =>
    cases rest with
    | nil =>
      intro s d hn
      have h1 : openDirectoryFS s d [seg] = openDirectoryDir s d seg := by
        simp [openDirectoryFS]
      rw [h1]
      exact nodup_openDirectoryDir d seg hn
    | cons r rs =>
      intro s d hn
      by_cases hdot : seg = "." ∨ seg = ""
      · have h1 : openDirectoryFS s d (seg :: r :: rs) =
            openDirectoryFS s d (r :: rs) := by
          simp [openDirectoryFS, hdot]
        rw [h1]
        exact ih s d hn
      · by_cases hup : seg = ".."
        · cases hp : getParent s d with
          | ok p =>
            have h1 : openDirectoryFS s d (seg :: r :: rs) =
                openDirectoryFS s p (r :: rs) := by
              simp [openDirectoryFS, hdot, hup, hp]
            rw [h1]
            exact ih s p hn
          | error e =>
            have h1 : openDirectoryFS s d (seg :: r :: rs) =
                (Except.error e, s) := by
              simp [openDirectoryFS, hdot, hup, hp]
            rw [h1]
            exact hn
        · cases hg : getDirectory s d seg with
          | mk res s2 =>
            have hn2 : KeysNodup s2 := by
              have hm := nodup_getDirectory d seg hn
              rw [hg] at hm
              exact hm
            cases res with
            | ok d2 =>
              have h1 : openDirectoryFS s d (seg :: r :: rs) =
                  openDirectoryFS s2 d2 (r :: rs) := by
                simp [openDirectoryFS, hdot, hup, hg]
              rw [h1]
              exact ih s2 d2 hn2
            | error e =>
              have h1 : openDirectoryFS s d (seg :: r :: rs) =
                  (Except.error e, s2) := by
                simp [openDirectoryFS, hdot, hup, hg]
              rw [h1]
              exact hn2

/-- Claim C3: for paths that resolve to existing entries, resolution is
idempotent.  When a first `FileSystem.open_file` walk returns the file
object `f` in state `sF`, rerunning the same walk from `sF` returns the
same object `f` — same stored host path, same construction serial
number — and leaves the state exactly `sF`: nothing is re-created (in
particular the `File`-construction counter is unchanged) and nothing is
re-cached.  Likewise for `open_directory`.  The cache maps never hold
two entries for the same name: duplicate-freedom of every cache map is
preserved by both walks. -/
theorem C3_idempotent_resolution (s : FS) (d : Nat)
    (segsF segsD : List String) (f : FileObj) (sF : FS) (r : Nat) (sD : FS)
    (hn : KeysNodup s)
    (hf : openFileFS s d segsF = (Except.ok f, sF))
    (hd : openDirectoryFS s d segsD = (Except.ok r, sD)) :
    openFileFS sF d segsF = (Except.ok f, sF) ∧
    openDirectoryFS sD d segsD = (Except.ok r, sD) ∧
    KeysNodup sF ∧ KeysNodup sD := by
  refine ⟨openFileFS_stable segsF s d f sF sF hf (FSLe_refl sF),
    openDirectoryFS_stable segsD s d r sD sD hd (FSLe_refl sD), ?_, ?_⟩
  · have := nodup_openFileFS segsF s d hn
    rw [hf] at this
    exact this
  · have := nodup_openDirectoryFS segsD s d hn
    rw [hd] at this
    exact this

/-- Concrete base state for the C3 witness: fresh `FileSystem` over a
host with the file `"x"` and the directory `"dd"` under the root. -/
def idemBase : FS :=
  initFS [(["r"], HKind.dir), (["r", "x"], HKind.file),
    (["r", "dd"], HKind.dir)] ["r"]

/-- State after `open_file("x")` on `idemBase`: the root cached the
file object with serial number 0. -/
def idemAfterFile : FS :=
  ⟨idemBase.host, [⟨["r"], none, [("x", ⟨["r", "x"], 0⟩)], []⟩], 1⟩

/-- State after `open_directory("dd")` on `idemBase`: the root cached
slot 1, the child directory node. -/
def idemAfterDir : FS :=
  ⟨idemBase.host, [⟨["r"], none, [], [("dd", 1)]⟩,
    ⟨["r", "dd"], some 0, [], []⟩], 0⟩

/-- Witness for `C3_idempotent_resolution`: reruns of
`open_file(["x"])` and `open_directory(["dd"])` from the concrete
post-states reproduce the same results and states. -/
theorem C3_idempotent_resolution_witness :
    openFileFS idemAfterFile 0 ["x"] = (Except.ok ⟨["r", "x"], 0⟩, idemAfterFile) ∧
    openDirectoryFS idemAfterDir 0 ["dd"] = (Except.ok 1, idemAfterDir) ∧
    KeysNodup idemAfterFile ∧ KeysNodup idemAfterDir :=
  C3_idempotent_resolution idemBase 0 ["x"] ["dd"] ⟨["r", "x"], 0⟩
    idemAfterFile 1 idemAfterDir (by unfold KeysNodup; decide)
    (by rfl) (by rfl)

end Junco
